import Mathlib

/-!
Verification development for the RAG serving core
(`rag_core/vectorstore.py`, `rag_core/cache.py`, `rag_core/document.py`,
`backend/api.py`).  The Python code is shallowly embedded: pure functions
become Lean functions, floats become rationals, Python dictionaries become
structures with `Option` fields for keys that may be absent, and calls to
external collaborators (ChromaDB, Redis, the Ollama endpoints, the
cross-encoder) are modelled by environment records that hold the responses
those collaborators return during one request.
-/

namespace RagCore

/-! ### Python-style string helpers

Core `String` operations such as `trim`, `toLower`, `splitOn` or
`endsWith` are re-implemented on the underlying character lists so that
every definition evaluates by kernel reduction. -/

/-- Python `str.strip()`. -/
def pyStrip (s : String) : String :=
  String.mk (((s.data.dropWhile Char.isWhitespace).reverse.dropWhile
    Char.isWhitespace).reverse)

/-- Python `str.lower()`. -/
def pyLower (s : String) : String :=
  String.mk (s.data.map Char.toLower)

/-- Python `text.split('\n')` (always at least one element). -/
def splitNlGo : List Char → List Char → List String
  | cur, [] => [String.mk cur.reverse]
  | cur, c :: cs =>
    if c = '\n' then String.mk cur.reverse :: splitNlGo [] cs
    else splitNlGo (c :: cur) cs

def splitNl (s : String) : List String :=
  splitNlGo [] s.data

/-- `'\n'.join(current_chunk)`. -/
def strJoinNl : List String → String
  | [] => ""
  | l :: ls => ls.foldl (fun acc x => acc ++ "\n" ++ x) l

/-- Python `s[:-n]` used when stripping a known suffix. -/
def dropRightStr (s : String) (n : Nat) : String :=
  String.mk (s.data.take (s.data.length - n))

/-- Whether `hay` starts with `needle` (character lists). -/
def listStartsWith : List Char → List Char → Bool
  | _, [] => true
  | [], _ :: _ => false
  | h :: hs, n :: ns => h == n && listStartsWith hs ns

/-- Python `s.startswith(p)`. -/
def startsWithStr (s p : String) : Bool :=
  listStartsWith s.data p.data

/-- Python `s.endswith(suf)`. -/
def endsWithStr (s suf : String) : Bool :=
  listStartsWith s.data.reverse suf.data.reverse

/-- Scan of `hay` for `needle` as a contiguous substring
(the Python `needle in hay` test on `str`). -/
def subScan (needle : List Char) : List Char → Bool
  | [] => needle.isEmpty
  | c :: cs => listStartsWith (c :: cs) needle || subScan needle cs

/-- Python `needle in hay` for strings. -/
def strContains (hay needle : String) : Bool :=
  subScan needle.data hay.data

/-- A word character for the purposes of the `\b` boundary:
`[A-Za-z0-9_]`. -/
def isWordChar (c : Char) : Bool :=
  c.isAlpha || c.isDigit || c == '_'

/-- Python `str.split()` (split on whitespace runs, dropping empties),
written with explicit fuel; the fuel is instantiated with the length of
the character list, which always suffices because every step consumes at
least one character. -/
def splitWsF : Nat → List Char → List String
  | 0, _ => []
  | _, [] => []
  | fuel + 1, c :: cs =>
    if c.isWhitespace then splitWsF fuel cs
    else
      String.mk ((c :: cs).takeWhile (fun d => !d.isWhitespace)) ::
        splitWsF fuel ((c :: cs).dropWhile (fun d => !d.isWhitespace))

/-- `set(s.lower().split())` from `_apply_hybrid_search`. -/
def wordsSet (s : String) : Finset String :=
  (splitWsF (pyLower s).data.length (pyLower s).data).toFinset

/-! ### Levenshtein edit distance (the `Levenshtein.distance` library
function used by `_rerank_and_deduplicate`). -/

/-- Classic Levenshtein distance on character lists. -/
def levList : List Char → List Char → Nat
  | [], ys => ys.length
  | x :: xs, [] => (x :: xs).length
  | x :: xs, y :: ys =>
    if x = y then levList xs ys
    else 1 + min (levList xs (y :: ys)) (min (levList (x :: xs) ys) (levList xs ys))
  termination_by xs ys => xs.length + ys.length

/-- `Levenshtein.distance` on strings. -/
def levenshtein_distance (a b : String) : Nat :=
  levList a.data b.data

/-! ### The three `re.findall` extractions of `_is_semantic_duplicate`
and `_rerank_and_deduplicate`.  Each scanner mirrors the left-to-right,
non-overlapping, greedy semantics of `re.findall`; fuel is the length of
the scanned list (each step consumes at least one character). -/

/-- `re.findall(r'\d+\.?\d*', text)`: a maximal digit run, an optional
single dot, then a maximal digit run. -/
def scanNumbersF : Nat → List Char → List String
  | 0, _ => []
  | _, [] => []
  | fuel + 1, c :: cs =>
    if c.isDigit then
      let ds := (c :: cs).takeWhile Char.isDigit
      let rest := (c :: cs).dropWhile Char.isDigit
      match rest with
      | '.' :: rest2 =>
        let ds2 := rest2.takeWhile Char.isDigit
        String.mk (ds ++ '.' :: ds2) :: scanNumbersF fuel (rest2.dropWhile Char.isDigit)
      | _ => String.mk ds :: scanNumbersF fuel rest
    else scanNumbersF fuel cs

def findNumbers (s : String) : List String :=
  scanNumbersF s.data.length s.data

/-- `re.findall(r'[A-Z][a-z]?\d*', text)`: one uppercase letter, an
optional lowercase letter, then a maximal digit run. -/
def scanFormulasF : Nat → List Char → List String
  | 0, _ => []
  | _, [] => []
  | fuel + 1, c :: cs =>
    if c.isUpper then
      let (low, rest1) :=
        match cs with
        | d :: ds => if d.isLower then ([d], ds) else (([] : List Char), cs)
        | [] => (([] : List Char), ([] : List Char))
      let digs := rest1.takeWhile Char.isDigit
      String.mk (c :: (low ++ digs)) :: scanFormulasF fuel (rest1.dropWhile Char.isDigit)
    else scanFormulasF fuel cs

def findFormulas (s : String) : List String :=
  scanFormulasF s.data.length s.data

/-- `re.findall(r'\b[A-Za-z]{3,}\b', text)`: because the matched letters
are word characters, the boundaries force the match to be a maximal run
of word characters that is entirely alphabetic and of length at least 3. -/
def scanTermsF : Nat → List Char → List String
  | 0, _ => []
  | _, [] => []
  | fuel + 1, c :: cs =>
    if isWordChar c then
      let run := (c :: cs).takeWhile isWordChar
      let rest := (c :: cs).dropWhile isWordChar
      (if run.all Char.isAlpha && decide (3 ≤ run.length) then [String.mk run] else []) ++
        scanTermsF fuel rest
    else scanTermsF fuel cs

def findKeyTerms (s : String) : List String :=
  scanTermsF s.data.length s.data

/-- `extract_key_info` of `_is_semantic_duplicate`:
`set(numbers + formulas + key_terms[:10])`. -/
def extract_key_info (s : String) : Finset String :=
  (findNumbers s ++ findFormulas s ++ (findKeyTerms s).take 10).toFinset

/-- `_is_semantic_duplicate(content1, content2, threshold)`. -/
def is_semantic_duplicate (content1 content2 : String) (threshold : ℚ) : Bool :=
  let info1 := extract_key_info content1
  let info2 := extract_key_info content2
  if info1 = ∅ ∨ info2 = ∅ then false
  else
    let overlap := (info1 ∩ info2).card
    let total := (info1 ∪ info2).card
    if 0 < total then decide ((overlap : ℚ) / (total : ℚ) > threshold) else false

/-- The key-info Jaccard overlap of two texts (division by zero yields 0,
matching the guarded code path that never divides by zero). -/
def keyInfoJaccard (content1 content2 : String) : ℚ :=
  ((extract_key_info content1 ∩ extract_key_info content2).card : ℚ) /
    ((extract_key_info content1 ∪ extract_key_info content2).card : ℚ)

/-! ### Stable sorting (Python `sorted`, which is a stable sort). -/

/-- Insert `x` into a descending-by-key sorted list, keeping `x` after
ties that were already present (stability of the Python sort). -/
def insertDesc (key : α → ℚ) (x : α) : List α → List α
  | [] => [x]
  | y :: ys => if key y ≤ key x then x :: y :: ys else y :: insertDesc key x ys

/-- Python `sorted(l, key=key, reverse=True)` as a stable insertion sort. -/
def pySortDesc (key : α → ℚ) : List α → List α
  | [] => []
  | x :: xs => insertDesc key x (pySortDesc key xs)

/-- Insert `x` into an ascending-by-key sorted list, stably. -/
def insertAsc (key : α → ℚ) (x : α) : List α → List α
  | [] => [x]
  | y :: ys => if key x ≤ key y then x :: y :: ys else y :: insertAsc key x ys

/-- Python `sorted(l, key=key)` as a stable insertion sort. -/
def pySortAsc (key : α → ℚ) : List α → List α
  | [] => []
  | x :: xs => insertAsc key x (pySortAsc key xs)

/-! ### Data model: chunk metadata and candidate chunks.

A Python metadata dictionary is modelled by a structure whose fields are
the keys the code reads; an `Option` value `none` stands for an absent
key. -/

structure ChunkMeta where
  filename : Option String
  domain : Option String
  title : Option String
  doc_type : Option String
  page_number : Option Nat
  /-- the `section` key read by `format_source_attribution` -/
  section' : Option String
  section_type : Option String
  section_number : Option String
  section_title : Option String
  chunk_type : Option String
  chunk_index : Option Nat
deriving DecidableEq, Repr

/-- A metadata record with every key absent. -/
def emptyMeta : ChunkMeta :=
  ⟨none, none, none, none, none, none, none, none, none, none, none⟩

/-- A candidate chunk dictionary as built by
`query_with_expanded_context` and mutated by the downstream steps.
The keys `hybrid_score`, `rerank_score` and `score` are only inserted by
the hybrid-search, reranker and final-scoring steps, hence `Option`. -/
structure Chunk where
  page_content : String
  metadata : ChunkMeta
  similarity : ℚ
  distance : Option ℚ
  confidence : ℚ
  hybrid_score : Option ℚ
  rerank_score : Option ℚ
  score : Option ℚ
deriving DecidableEq, Repr

/-- A LangChain-style document (`page_content` plus `metadata`), the
element type of `all_splits` in `add_to_vector_collection` and of the
chunker output. -/
structure Doc where
  page_content : String
  metadata : ChunkMeta
deriving DecidableEq, Repr

/-! ### `VectorStore._rerank_and_deduplicate`

The first loop of the function computes `content_to_docs` (never read
afterwards — dead code) and `content_to_domains`; only the number of
distinct domains attached to a given text matters. -/

/-- Number of distinct domains of the chunks carrying exactly this text
(`len(content_to_domains[content])`). -/
def contentDomainsCount (chunks : List Chunk) (content : String) : Nat :=
  (((chunks.filter (fun c => c.page_content == content)).map
      (fun c => c.metadata.domain.getD "unknown")).dedup).length

/-- The `domain_bonus` of the scoring loop:
`0.3 if domain_consistency == 1 else 0.0`. -/
def domainBonusTab (chunks : List Chunk) (content : String) : ℚ :=
  if contentDomainsCount chunks content = 1 then 3/10 else 0

/-- One iteration of the scoring loop of `_rerank_and_deduplicate`,
applied to `chunk` while the full list currently holds the state `st`
(already-scored prefix, then `chunk`, then the untouched tail).  The
inner `other_chunk != chunk` test is Python dictionary inequality, which
the structure equality of `Chunk` mirrors: chunks scored earlier carry a
`score` key and therefore always compare unequal to the current one. -/
def scoreOne (domBonus : String → ℚ) (st : List Chunk) (chunk : Chunk) : Chunk :=
  let numbers := findNumbers chunk.page_content
  let conflicting := (st.filter (fun other => other ≠ chunk)).filter
    (fun other =>
      !numbers.isEmpty && !(findNumbers other.page_content).isEmpty &&
        (numbers.take 3).any (fun num => strContains other.page_content num))
  let fact_penalty : ℚ := (conflicting.length : ℚ) * (1/2)
  let length_score : ℚ := min ((chunk.page_content.length : ℚ) / 1000) 1
  let quality_score : ℚ := if 50 < (pyStrip chunk.page_content).length then 1/5 else 0
  let domain_bonus := domBonus chunk.page_content
  { chunk with
    score := some (chunk.similarity + domain_bonus + length_score * (1/10) +
      quality_score - fact_penalty),
    confidence := min (chunk.similarity + domain_bonus) 1 }

/-- The scoring loop: `done` is the already-mutated prefix, the second
argument the chunks still to process; the current full list is
`done ++ todo`. -/
def scorePass (domBonus : String → ℚ) : List Chunk → List Chunk → List Chunk
  | done, [] => done
  | done, chunk :: rest =>
    scorePass domBonus (done ++ [scoreOne domBonus (done ++ chunk :: rest) chunk]) rest

/-- The whole scoring phase of `_rerank_and_deduplicate` (the
`content_to_domains` table is computed once, before the loop). -/
def scoreChunks (chunks : List Chunk) : List Chunk :=
  scorePass (domainBonusTab chunks) [] chunks

/-- The duplicate test of the deduplication walk: exact equality, then
Levenshtein distance below 10, then semantic duplication at threshold
0.9. -/
def isDupPair (chunk u : Chunk) : Bool :=
  chunk.page_content == u.page_content ||
    decide (levenshtein_distance chunk.page_content u.page_content < 10) ||
    is_semantic_duplicate chunk.page_content u.page_content (9/10)

/-- The deduplication walk: a candidate is dropped when it duplicates an
already-accepted chunk; after each candidate the walk stops as soon as
`top_k` chunks have been accepted. -/
def dedupWalk (top_k : Nat) : List Chunk → List Chunk → List Chunk
  | acc, [] => acc
  | acc, chunk :: rest =>
    let acc' := if acc.any (fun u => isDupPair chunk u) then acc else acc ++ [chunk]
    if top_k ≤ acc'.length then acc' else dedupWalk top_k acc' rest

/-- `VectorStore._rerank_and_deduplicate(chunks, top_k)` (the
`fuzzy_threshold` parameter of the source is never read — the fuzzy test
uses the literal 10). -/
def rerank_and_deduplicate (chunks : List Chunk) (top_k : Nat) : List Chunk :=
  dedupWalk top_k [] (pySortDesc (fun c => c.score.getD 0) (scoreChunks chunks))

/-! ### `utils.format_source_attribution` -/

/-- `re.sub(r'\.(pdf|docx|txt)$', '', title, flags=re.IGNORECASE)`. -/
def stripTitleExt (t : String) : String :=
  if endsWithStr (pyLower t) ".pdf" then dropRightStr t 4
  else if endsWithStr (pyLower t) ".docx" then dropRightStr t 5
  else if endsWithStr (pyLower t) ".txt" then dropRightStr t 4
  else t

/-- `re.sub(r'^[0-9]+\s*[-_]\s*', '', title)`. -/
def stripLeadingNumber (t : String) : String :=
  let cs := t.data
  let ds := cs.takeWhile Char.isDigit
  if ds.isEmpty then t
  else
    let rest := (cs.dropWhile Char.isDigit).dropWhile Char.isWhitespace
    match rest with
    | '-' :: r => String.mk (r.dropWhile Char.isWhitespace)
    | '_' :: r => String.mk (r.dropWhile Char.isWhitespace)
    | _ => t

/-- `re.sub(r'^[Ss]ection\s*', '', section)`. -/
def stripSectionWord (s : String) : String :=
  if startsWithStr s "Section" || startsWithStr s "section" then
    String.mk ((s.data.drop 7).dropWhile Char.isWhitespace)
  else s

/-- `format_source_attribution(metadata)`; the `if page:` and
`if section:` tests are Python truthiness, so a page number `0` and an
empty section string are skipped. -/
def format_source_attribution (meta : ChunkMeta) : String :=
  let title := meta.title.getD (meta.filename.getD "Unknown Document")
  let title := stripLeadingNumber (stripTitleExt title)
  let base := "From: " ++ title
  let base :=
    match meta.page_number with
    | some p => if p ≠ 0 then base ++ ", Page " ++ toString p else base
    | none => base
  match meta.section' with
  | some sec => if sec ≠ "" then base ++ ", Section " ++ stripSectionWord sec else base
  | none => base

/-! ### `VectorStore.query_with_expanded_context`

External collaborators are modelled by a `QueryEnv` that records the
responses they give during this request: the Redis lookup of the query
cache, the query classifier (an LLM round trip inside
`QueryClassifier.classify_query`, `none` when it raises), the ChromaDB
collection and the optional cross-encoder reranker. -/

/-- The classifier response dictionary, as read through
`classification.get('domain', 'general')` and
`classification.get('confidence', 0.5)`. -/
structure QClassification where
  domain : Option String
  confidence : Option ℚ
deriving DecidableEq, Repr

/-- The `documents`/`metadatas`/`distances` triple returned by
`collection.query`. -/
structure CollectionResponse where
  documents : List String
  metadatas : List ChunkMeta
  distances : List (Option ℚ)
deriving DecidableEq, Repr

/-- One entry of the `sources` list of the result. -/
structure SourceEntry where
  title : String
  page : Option Nat
  sectionNumber : Option String
  domain : String
  attribution : String
deriving DecidableEq, Repr

/-- The result dictionary of `query_with_expanded_context`; the
`query_classification` sub-dictionary is flattened into the last two
fields. -/
structure QueryResult where
  documents : List (List String)
  metadatas : List (List ChunkMeta)
  ids : List (List String)
  sources : List SourceEntry
  classifiedDomain : String
  classifiedConfidence : ℚ
deriving DecidableEq, Repr

/-- Collaborator responses observed while serving one retrieval request.
`redisCached` is the response to the query-cache lookup (already
unpickled); fixing it in the environment expresses the hyperproperty
hypothesis that both compared runs receive equal collaborator
responses. -/
structure QueryEnv where
  redisCached : Option QueryResult
  classifyResponse : Option QClassification
  collectionAvailable : Bool
  queryResponse : CollectionResponse
  rerankerAvailable : Bool
  rerankScores : List ℚ

/-- Rendering of an optional string inside the Python f-string used for
the cache key (`None` renders as the text `None`). -/
def optStr : Option String → String
  | none => "None"
  | some s => s

/-- The content hashed into the cache key
`f"{prompt}|{n_results}|{expand}|{filename}|{domain_filter}|{session_id}"`
(the SHA-256 hex digest is modelled by the hashed content itself, which
serves only as an opaque key). -/
def queryCacheKeyContent (prompt : String) (n_results expand : Nat)
    (filename domain_filter session_id : Option String) : String :=
  prompt ++ "|" ++ toString n_results ++ "|" ++ toString expand ++ "|" ++
    optStr filename ++ "|" ++ optStr domain_filter ++ "|" ++ optStr session_id

/-- `classification.get('domain', 'general')`, with the `except` branch
falling back to `'general'`. -/
def detectedDomain (env : QueryEnv) : String :=
  match env.classifyResponse with
  | some cl => cl.domain.getD "general"
  | none => "general"

/-- The confidence placed in `query_classification`
(`0.5` when the classifier raised and `classification` is unbound). -/
def classifiedConf (env : QueryEnv) : ℚ :=
  match env.classifyResponse with
  | some cl => cl.confidence.getD (1/2)
  | none => 1/2

/-- `target_domain = domain_filter if domain_filter else detected_domain`
(Python truthiness: an empty string also falls back). -/
def targetDomain (env : QueryEnv) (domain_filter : Option String) : String :=
  match domain_filter with
  | some d => if d = "" then detectedDomain env else d
  | none => detectedDomain env

/-- The `n_results` actually sent to the collection:
`min(n_results * 3, 15)`. -/
def overfetchCount (n_results : Nat) : Nat :=
  min (n_results * 3) 15

/-- The `where` filter sent to the collection. -/
def whereConditions (filename : Option String) (target : String) : List (String × String) :=
  (match filename with
   | some f => if f = "" then [] else [("filename", f)]
   | none => []) ++
  (if target ≠ "" ∧ target ≠ "general" then [("domain", target)] else [])

/-- The candidate-construction loop over
`zip(docs, metadatas, distances)`: similarity `1 - distance`, a `+0.2`
domain boost, and the `enhanced_similarity < 0.3` filter. -/
def buildChunks (target : String) : List String → List ChunkMeta → List (Option ℚ) → List Chunk
  | doc :: ds, meta :: ms, dist :: ts =>
    let similarity : ℚ := match dist with | some d => 1 - d | none => 1
    let domain_boost : ℚ := if meta.domain.getD "unknown" = target then 1/5 else 0
    let enhanced := min (similarity + domain_boost) 1
    (if enhanced < 3/10 then []
     else [{ page_content := doc, metadata := meta, similarity := similarity,
             distance := dist, confidence := enhanced, hybrid_score := none,
             rerank_score := none, score := none }]) ++
      buildChunks target ds ms ts
  | _, _, _ => []

/-- `VectorStore._apply_hybrid_search(query, chunks, n_results)`. -/
def apply_hybrid_search (query : String) (chunks : List Chunk) (n_results : Nat) : List Chunk :=
  let query_words := wordsSet query
  let scored := chunks.map (fun c =>
    let content_words := wordsSet c.page_content
    let keyword_score : ℚ := ((query_words ∩ content_words).card : ℚ) / (max query_words.card 1 : ℚ)
    { c with hybrid_score := some (7/10 * c.similarity + 3/10 * keyword_score) })
  (pySortDesc (fun c => c.hybrid_score.getD 0) scored).take (n_results * 2)

/-- `for chunk, score in zip(chunks, scores): chunk['rerank_score'] = score`
(chunks beyond the score list keep their previous `rerank_score`). -/
def applyRerankScores : List Chunk → List ℚ → List Chunk
  | [], _ => []
  | cs, [] => cs
  | c :: cs, s :: ss => { c with rerank_score := some s } :: applyRerankScores cs ss

/-- `Reranker.rerank_chunks(query, chunks, top_k)` with the cross-encoder
scores supplied by the environment. -/
def rerank_chunks (scores : List ℚ) (chunks : List Chunk) (top_k : Nat) : List Chunk :=
  if chunks.isEmpty then chunks.take top_k
  else (pySortDesc (fun c => c.rerank_score.getD 0) (applyRerankScores chunks scores)).take top_k

/-- The candidate list handed to `_rerank_and_deduplicate`: build,
optional hybrid search (strictly more than 3 candidates), optional
cross-encoder rerank. -/
def queryCandidates (env : QueryEnv) (prompt : String) (n_results : Nat)
    (domain_filter : Option String) : List Chunk :=
  let target := targetDomain env domain_filter
  let chunks := buildChunks target env.queryResponse.documents
    env.queryResponse.metadatas env.queryResponse.distances
  let chunks := if 3 < chunks.length then apply_hybrid_search prompt chunks n_results else chunks
  if env.rerankerAvailable then rerank_chunks env.rerankScores chunks n_results else chunks

/-- The deduplicated, reranked chunk list of one retrieval request. -/
def queryReranked (env : QueryEnv) (prompt : String) (n_results : Nat)
    (domain_filter : Option String) : List Chunk :=
  rerank_and_deduplicate (queryCandidates env prompt n_results domain_filter) n_results

/-- The `sources` entry built from one chunk's metadata. -/
def mkSource (meta : ChunkMeta) : SourceEntry :=
  { title := meta.title.getD (meta.filename.getD "Unknown Document"),
    page := meta.page_number,
    sectionNumber := meta.section_number,
    domain := meta.domain.getD "general",
    attribution := format_source_attribution meta }

/-- Assembly of the result dictionary from the reranked chunks. -/
def assembleResult (env : QueryEnv) (prompt : String) (n_results : Nat)
    (domain_filter : Option String) : QueryResult :=
  let reranked := queryReranked env prompt n_results domain_filter
  { documents := [reranked.map (fun c => c.page_content)],
    metadatas := [reranked.map (fun c => c.metadata)],
    ids := [reranked.map (fun c =>
      c.metadata.filename.getD "unknown" ++ "_" ++ toString (c.metadata.chunk_index.getD 0))],
    sources := reranked.map (fun c => mkSource c.metadata),
    classifiedDomain := detectedDomain env,
    classifiedConfidence := classifiedConf env }

/-- `VectorStore.query_with_expanded_context`.  The session `redis_set`
and the final caching `redis_set` are write-only side effects and do not
influence the returned value; the unavailable-collection early return is
modelled with empty lists (the source dictionary there simply lacks the
`sources` and `query_classification` keys). -/
def query_with_expanded_context (env : QueryEnv) (prompt : String)
    (n_results expand : Nat) (filename domain_filter session_id : Option String) :
    QueryResult :=
  let _cache_key := "query:" ++
    queryCacheKeyContent prompt n_results expand filename domain_filter session_id
  match env.redisCached with
  | some cached => cached
  | none =>
    if !env.collectionAvailable then
      { documents := [[]], metadatas := [[]], ids := [[]], sources := [],
        classifiedDomain := detectedDomain env, classifiedConfidence := classifiedConf env }
    else
      let _nFetch := overfetchCount n_results
      let _whereC := whereConditions filename (targetDomain env domain_filter)
      assembleResult env prompt n_results domain_filter

/-! ### `VectorStore.list_documents` and the empty-knowledge-base check
of `backend/api.py` -/

/-- The aggregate record built per filename by `list_documents`. -/
structure DocInfo where
  filename : String
  count : Nat
  examples : List ChunkMeta
  domain : String
  title : String
  doc_type : String
deriving DecidableEq, Repr

/-- Association-list lookup (Python `dict` access by key). -/
def alGet : List (String × β) → String → Option β
  | [], _ => none
  | (k, v) :: rest, key => if k = key then some v else alGet rest key

/-- Python `d[key] = v`: replaces in place when the key exists, else
appends (insertion order preserved). -/
def alSetKeepPos : List (String × β) → String → β → List (String × β)
  | [], key, v => [(key, v)]
  | (k, w) :: rest, key, v =>
    if k = key then (key, v) :: rest else (k, w) :: alSetKeepPos rest key v

/-- Python `del d[key]`: removes the (unique) binding of `key`. -/
def alRemove : List (String × β) → String → List (String × β)
  | [], _ => []
  | (k, w) :: rest, key => if k = key then rest else (k, w) :: alRemove rest key

/-- The aggregation loop of `list_documents` over the returned
metadatas. -/
def listDocsGo : List ChunkMeta → List (String × DocInfo) → List (String × DocInfo)
  | [], files => files
  | meta :: rest, files =>
    let fname := meta.filename.getD "unknown"
    let files' :=
      match alGet files fname with
      | none =>
        files ++ [(fname,
          { filename := fname, count := 1, examples := [meta],
            domain := meta.domain.getD "general",
            title := meta.title.getD fname,
            doc_type := meta.doc_type.getD "document" })]
      | some info =>
        alSetKeepPos files fname
          { info with
            count := info.count + 1
            examples := if info.examples.length < 3 then info.examples ++ [meta]
                        else info.examples }
    listDocsGo rest files'

/-- `VectorStore.list_documents()` applied to the metadatas returned by
the broad query `collection.query(query_texts=["."], n_results=10000)`.
That broad query embeds the probe text `"."` through the collection's
Ollama embedding function, i.e. it costs one embedding-endpoint call. -/
def list_documents (metas : List ChunkMeta) : List DocInfo :=
  (listDocsGo metas []).map (fun p => p.2)

/-- The fixed empty-knowledge-base answer of `backend/api.py`. -/
def emptyKbMsg : String :=
  "There is nothing in the knowledge base right now. Please upload a document before continuing."

/-- The response body of the `/query` empty-knowledge-base short
circuit. -/
structure EmptyKbResponse where
  answer : String
  context : String
  status : String
deriving DecidableEq, Repr

def emptyKbResponse : EmptyKbResponse :=
  { answer := emptyKbMsg, context := "", status := "empty_kb" }

/-- Environment of one `/query` request: whether
`get_vector_collection()` succeeds, and the metadatas the broad listing
query returns. -/
structure QueryRagEnv where
  collectionAvailable : Bool
  listMetas : List ChunkMeta

/-- Trace of the empty-knowledge-base check of the `/query` handler:
the short-circuit response if taken (`none` means the handler proceeds
to retrieval and generation, outside this check), plus the number of
embedding-endpoint and LLM calls issued by the check itself. -/
structure EmptyCheckTrace where
  response : Option EmptyKbResponse
  embedCalls : Nat
  llmCalls : Nat
deriving DecidableEq, Repr

/-- The `if not VectorStore.list_documents():` check of `query_rag`.
When the collection is unavailable `list_documents` returns `[]` without
querying; otherwise the broad query runs and embeds its probe text. -/
def query_rag_empty_check (env : QueryRagEnv) : EmptyCheckTrace :=
  if !env.collectionAvailable then
    { response := some emptyKbResponse, embedCalls := 0, llmCalls := 0 }
  else if list_documents env.listMetas = [] then
    { response := some emptyKbResponse, embedCalls := 1, llmCalls := 0 }
  else
    { response := none, embedCalls := 1, llmCalls := 0 }

/-! ### The streaming dispatcher (`/query/stream`) -/

/-- One newline-delimited JSON frame; only the `answer` and `status`
fields are modelled (the remaining fields — context, sources,
classification, context metadata — do not bear on the frame-counting
claims). -/
structure Frame where
  answer : String
  status : String
deriving DecidableEq, Repr

def isTerminalFrame (f : Frame) : Bool :=
  f.status == "success" || f.status == "error" || f.status == "empty_kb" ||
    f.status == "no_context"

def noContextMsg : String :=
  "[No relevant context found for your query. Please try rephrasing or uploading more documents.]"

def noAnswerMsg : String :=
  "[No answer could be generated. Please try rephrasing your question or uploading more documents.]"

/-- The token-streaming generator `word_stream`: one `streaming` frame
per upstream token, then a single final frame whose `answer` field is
the empty string. -/
def word_stream (tokens : List String) : List Frame :=
  tokens.map (fun w => { answer := w, status := "streaming" }) ++
    [{ answer := "", status := "success" }]

/-- The final value of the local `answer_accum` of `word_stream`: the
accumulated tokens, replaced by the fixed no-answer message when no token
arrived or the accumulation is whitespace-only.  This local is never
emitted — the final frame carries `answer: ""`. -/
def wordStreamAccum (tokens : List String) : String :=
  let acc := String.join tokens
  if tokens.isEmpty || pyStrip acc == "" then noAnswerMsg else acc

/-- Attached-file handling of `/query/stream`, at the collaborator
boundary: the MIME check against the supported list, the 150 MB size
check, OCR/parsing failure, and the extracted chunks (produced by
external extractors). -/
structure AttachedFile where
  mimeSupported : Bool
  tooLarge : Bool
  ocrFails : Bool
  extractedChunks : List String
  filename : String

/-- Environment of one `/query/stream` request. `pipelineExc` is a
Python exception raised anywhere in the handler body (caught by the
outer `except`, which answers with `error_stream`); `context` is the
string produced by the context manager; `tokens` are the upstream LLM
stream contents. -/
structure StreamEnv where
  pipelineExc : Option String
  listMetas : List ChunkMeta
  attached : Option AttachedFile
  context : String
  tokens : List String

/-- The response of the streaming endpoint: either a plain (non-stream)
JSON error body with its HTTP status code, or a streamed list of
frames. -/
inductive StreamResult
  | json (statusCode : Nat)
  | stream (frames : List Frame)
deriving DecidableEq, Repr

/-- The tail of the `/query/stream` handler after any attached file was
folded into the context: truncation of the context to 3000 characters,
the empty-context check, then the token stream. -/
def streamTail (env : StreamEnv) (extra : String) : StreamResult :=
  let context1 := env.context ++ extra
  let context2 := if 3000 < context1.length then String.mk (context1.data.take 3000)
                  else context1
  if pyStrip context2 == "" then
    .stream [{ answer := noContextMsg, status := "no_context" }]
  else
    .stream (word_stream env.tokens)

/-- The `/query/stream` handler `query_rag_stream`, following the source
order: outer exception → `error_stream`; empty knowledge base →
`empty_kb_stream`; attached-file validation and extraction (plain
non-stream JSON errors: 400 for unsupported type, size and empty
extraction, 500 for OCR failure); context truncation; empty context →
the `no_context` frame; otherwise `word_stream`. -/
def query_rag_stream (env : StreamEnv) : StreamResult :=
  match env.pipelineExc with
  | some e => .stream [{ answer := "[Error: " ++ e ++ "]", status := "error" }]
  | none =>
    if list_documents env.listMetas = [] then
      .stream [{ answer := emptyKbMsg, status := "empty_kb" }]
    else
      match env.attached with
      | none => streamTail env ""
      | some f =>
        if !f.mimeSupported then .json 400
        else if f.tooLarge then .json 400
        else if f.ocrFails then .json 500
        else if f.extractedChunks.isEmpty then .json 400
        else
          streamTail env ("Context from " ++ f.filename ++ " (attached):\n" ++
            strJoinNl f.extractedChunks ++ "\n\n")

/-- Number of terminal frames delivered by a streaming-endpoint
response (a plain JSON body delivers none). -/
def terminalFrameCount : StreamResult → Nat
  | .json _ => 0
  | .stream fs => fs.countP (fun f => isTerminalFrame f)

/-! ### The `/upload` handler and the embeddings-cache helpers it calls

`backend/api.py` imports `rag_core.cache` as `cache` and calls
`cache.get_file_hash`, `cache.global_embeddings_exist` and
`cache.load_global_embeddings`.  None of these names is defined in
`rag_core/cache.py` (hash and cache helpers of that shape exist only as
local functions of the Streamlit entry point `app.py`), so the very
first of those calls raises `AttributeError` before the handler's `try`
block is entered. -/

/-- The module-level names actually bound in `rag_core/cache.py`. -/
def ragCoreCacheAttrs : List String :=
  ["hashlib", "json", "time", "pickle", "datetime", "timedelta",
   "Dict", "Any", "Optional", "List", "Tuple", "dataclass", "asdict", "Enum",
   "redis", "CACHE_TTL", "logger", "np", "OrderedDict", "threading", "queue",
   "CacheType", "CacheStrategy", "CacheEntry", "ResponseCache",
   "EmbeddingCache", "PerformanceMonitor",
   "response_cache", "embedding_cache", "performance_monitor"]

/-- The extensions accepted by `DocumentProcessor.is_supported_file`. -/
def supported_extensions : List String :=
  [".pdf", ".docx", ".doc", ".csv", ".xlsx", ".xls", ".txt",
   ".html", ".htm", ".json", ".xml", ".md"]

/-- The extension of a filename as produced by `os.path.splitext`
(everything from the last dot on; empty when there is no dot; the
special casing of leading-dot basenames is not modelled). -/
def extOf (filename : String) : String :=
  if filename.data.contains '.' then
    String.mk ('.' :: (filename.data.reverse.takeWhile (fun c => c ≠ '.')).reverse)
  else ""

/-- `DocumentProcessor.is_supported_file(filename)`. -/
def is_supported_file (filename : String) : Bool :=
  if filename = "" then false
  else supported_extensions.contains (pyLower (extOf filename))

/-- Outcome of one `/upload` request as far as the embeddings-cache
lookup is concerned. -/
inductive UploadOutcome
  | unsupported
  | raised
  | processed
deriving DecidableEq, Repr

/-- The `/upload` handler `upload_document` up to and including the
`cache.get_file_hash(file_bytes)` call: after the file-type validation
it resolves `get_file_hash` on the `rag_core.cache` module, which
raises `AttributeError` (uncaught — the call sits before the `try`
block), so no request ever reaches the processing and upsert code. -/
def upload_document (filename : String) : UploadOutcome :=
  if !is_supported_file filename then .unsupported
  else if ragCoreCacheAttrs.contains "get_file_hash" then .processed
  else .raised

/-! ### `VectorStore.add_to_vector_collection` -/

/-- One `collection.upsert` invocation. -/
structure UpsertCall where
  ids : List String
  documents : List String
  metadatas : List ChunkMeta
  embeddings : Option (List (List ℚ))
deriving DecidableEq, Repr

/-- Environment of one upsert run: collection availability and, per
batch number, whether `collection.upsert` raises. -/
structure AddEnv where
  collectionAvailable : Bool
  upsertFails : Nat → Bool

/-- Result of `add_to_vector_collection`: the returned boolean, the
upsert calls attempted (a failing call is still an attempt), and the
number of `time.sleep(0.5)` pacing delays executed. -/
structure AddResult where
  success : Bool
  calls : List UpsertCall
  sleeps : Nat
deriving DecidableEq, Repr

/-- The batch loop `for i in range(0, total_chunks, batch_size)` with
`batch_size = 50`.  A batch error is logged and re-raised, then caught
by the function's outer `except`, which logs again and returns `False`:
the walk stops at the first failing batch, no exception escapes (so the
function-level tenacity retry never fires), and no retry of the batch
happens. -/
def addGo (env : AddEnv) (fname : String) (embs : Option (List (List ℚ))) :
    Nat → Nat → Nat → List Doc → AddResult
  | _, _, _, [] => { success := true, calls := [], sleeps := 0 }
  | batchIdx, i, total, d :: ds =>
    let batch := (d :: ds).take 50
    let rest := (d :: ds).drop 50
    let batch_end := i + batch.length
    let call : UpsertCall :=
      { ids := (List.range batch.length).map (fun idx => fname ++ "_" ++ toString (i + idx)),
        documents := batch.map (fun s => s.page_content),
        metadatas := batch.map (fun s => s.metadata),
        embeddings := embs.map (fun e => (e.drop i).take (batch_end - i)) }
    if env.upsertFails batchIdx then
      { success := false, calls := [call], sleeps := 0 }
    else
      let tail := addGo env fname embs (batchIdx + 1) (i + 50) total rest
      { success := tail.success, calls := call :: tail.calls,
        sleeps := (if batch_end < total then 1 else 0) + tail.sleeps }
  termination_by _ _ _ remaining => remaining.length
  decreasing_by simp [List.length_drop]; omega

/-- `VectorStore.add_to_vector_collection(all_splits, file_name,
embeddings)`. -/
def add_to_vector_collection (env : AddEnv) (all_splits : List Doc)
    (file_name : String) (embeddings : Option (List (List ℚ))) : AddResult :=
  if !env.collectionAvailable then { success := false, calls := [], sleeps := 0 }
  else addGo env file_name embeddings 0 0 all_splits.length all_splits

/-- Partition of a list into consecutive batches of 50 (the shape the
upsert calls are expected to have). -/
def batchesOf50 : List α → List (List α)
  | [] => []
  | x :: xs => ((x :: xs).take 50) :: batchesOf50 ((x :: xs).drop 50)
  termination_by l => l.length
  decreasing_by simp [List.length_drop]; omega

/-! ### `cache.ResponseCache` -/

inductive RStrategy
  | lru
  | lfu
  | fifo
  | ttl
deriving DecidableEq, Repr

/-- A `CacheEntry` of `rag_core/cache.py` (value type `V`; the
`cache_type` discriminator is constant `RESPONSE` here; the `metadata`
dictionary is flattened into its two entries). -/
structure RCacheEntry (V : Type) where
  key : String
  value : V
  created_at : Nat
  accessed_at : Nat
  access_count : Nat
  size_bytes : Nat
  ttl_seconds : Nat
  mquery : String
  mcontext_length : Nat

/-- The `ResponseCache` state: the ordered dictionary `cache` and the
`access_counts` dictionary, both as insertion-ordered association
lists. -/
structure RCache (V : Type) where
  max_size : Nat
  strategy : RStrategy
  cache : List (String × RCacheEntry V)
  access_counts : List (String × Nat)

/-- `_generate_key`: the SHA-256 hex digest of
`f"{query}:{context}:{session_id}"` is modelled by the hashed content
itself, which serves only as an opaque key (the same inputs produce the
same key). -/
def rc_generate_key (query context session_id : String) : String :=
  query ++ ":" ++ context ++ ":" ++ session_id

/-- The front-of-dict walk shared by `_evict_lru` and `_evict_fifo`:
keys are collected while the evicted size is still below the needed
space (the check runs before each addition). -/
def evictKeysFront (needed : Nat) : List (String × RCacheEntry V) → Nat → List String
  | [], _ => []
  | (k, e) :: rest, acc =>
    if needed ≤ acc then [] else k :: evictKeysFront needed rest (acc + e.size_bytes)

/-- The `_evict_lfu` walk over the access counts sorted ascending. -/
def evictKeysLfu (needed : Nat) (cache : List (String × RCacheEntry V)) :
    List (String × Nat) → Nat → List String
  | [], _ => []
  | (k, _) :: rest, acc =>
    if needed ≤ acc then []
    else
      match alGet cache k with
      | some e => k :: evictKeysLfu needed cache rest (acc + e.size_bytes)
      | none => evictKeysLfu needed cache rest acc

/-- `for key in keys_to_remove: del self.cache[key]; del self.access_counts[key]`. -/
def removeKeys (rc : RCache V) (ks : List String) : RCache V :=
  { rc with
    cache := ks.foldl (fun l k => alRemove l k) rc.cache
    access_counts := ks.foldl (fun l k => alRemove l k) rc.access_counts }

/-- `_evict_entries(needed_space)` (the `TTL` strategy matches no branch
of the `if`/`elif` chain and evicts nothing). -/
def evictEntries (rc : RCache V) (needed : Nat) : RCache V :=
  match rc.strategy with
  | .lru => removeKeys rc (evictKeysFront needed rc.cache 0)
  | .fifo => removeKeys rc (evictKeysFront needed rc.cache 0)
  | .lfu => removeKeys rc
      (evictKeysLfu needed rc.cache (pySortAsc (fun p => (p.2 : ℚ)) rc.access_counts) 0)
  | .ttl => rc

/-- `ResponseCache.get(query, context, session_id)` at wall-clock second
`now`: a TTL-expired entry is deleted and misses; a hit bumps
`access_count`, refreshes `accessed_at` and moves the entry to the end
of the ordered dictionary. -/
def rcGet (rc : RCache V) (query context session_id : String) (now : Nat) :
    Option V × RCache V :=
  let key := rc_generate_key query context session_id
  match alGet rc.cache key with
  | none => (none, rc)
  | some entry =>
    if entry.ttl_seconds < now - entry.created_at then
      (none,
       { rc with
         cache := alRemove rc.cache key
         access_counts := alRemove rc.access_counts key })
    else
      let entry' := { entry with accessed_at := now, access_count := entry.access_count + 1 }
      (some entry'.value,
       { rc with
         cache := alRemove rc.cache key ++ [(key, entry')]
         access_counts := alSetKeepPos rc.access_counts key entry'.access_count })

/-- `ResponseCache.set(query, response, context, session_id,
ttl_seconds)` at wall-clock second `now`; `szOf` models the opaque
`len(pickle.dumps(value))` size estimate. -/
def rcSet (szOf : V → Nat) (rc : RCache V) (query : String) (response : V)
    (context session_id : String) (ttl now : Nat) : RCache V :=
  let key := rc_generate_key query context session_id
  let value_size := szOf response
  let current_size := (rc.cache.map (fun p => p.2.size_bytes)).sum
  let rc1 := if rc.max_size * 1000 < current_size + value_size
             then evictEntries rc value_size else rc
  let entry : RCacheEntry V :=
    { key := key, value := response, created_at := now, accessed_at := now,
      access_count := 1, size_bytes := value_size, ttl_seconds := ttl,
      mquery := String.mk (query.data.take 100), mcontext_length := context.length }
  { rc1 with
    cache := alSetKeepPos rc1.cache key entry
    access_counts := alSetKeepPos rc1.access_counts key 1 }

/-- Well-formedness of an association-list dictionary: keys occur at
most once (always true of states reachable from Python `dict`s). -/
def alKeysNodup (l : List (String × β)) : Prop :=
  (l.map Prod.fst).Nodup

/-! ### `DocumentProcessor._structured_chunking` -/

/-- Greedy anchored match of
`^(chapter|section|part|article)\s+(\d+[\.\d]*)\s*[:\.]?\s*(.*)` with
`re.IGNORECASE`, returning the three groups; since everything after
group 2 is optional plus `.*`, the greedy parse needs no backtracking.
The four alternatives start with distinct letters, so trying them in
order is exact. -/
def matchKeyword (cs : List Char) : Option (List Char × List Char) :=
  let tryOne : String → Option (List Char × List Char) := fun kw =>
    if (cs.take kw.length).map Char.toLower = kw.data
    then some (cs.take kw.length, cs.drop kw.length) else none
  (tryOne "chapter").orElse fun _ =>
    (tryOne "section").orElse fun _ =>
      (tryOne "part").orElse fun _ => tryOne "article"

def sectionMatch (line : String) : Option (String × String × String) :=
  match matchKeyword line.data with
  | none => none
  | some (kw, rest) =>
    let ws := rest.takeWhile Char.isWhitespace
    if ws.isEmpty then none
    else
      let rest1 := rest.dropWhile Char.isWhitespace
      let ds := rest1.takeWhile Char.isDigit
      if ds.isEmpty then none
      else
        let rest2 := rest1.dropWhile Char.isDigit
        let more := rest2.takeWhile (fun c => c == '.' || c.isDigit)
        let rest3 := (rest2.dropWhile (fun c => c == '.' || c.isDigit)).dropWhile
          Char.isWhitespace
        let rest4 :=
          match rest3 with
          | ':' :: r => r.dropWhile Char.isWhitespace
          | '.' :: r => r.dropWhile Char.isWhitespace
          | r => r
        some (String.mk kw, String.mk (ds ++ more), String.mk rest4)

/-- `DocumentProcessor._find_break_point(lines)`: walk
`range(len(lines)-1, 0, -1)` looking for a blank line or a sentence
terminator, else fall back to the midpoint. -/
def fbGo (lines : List String) : Nat → Nat
  | 0 => lines.length / 2
  | i + 1 =>
    match lines[i + 1]? with
    | some l =>
      if pyStrip l = "" then i + 1
      else if endsWithStr l "." || endsWithStr l "!" || endsWithStr l "?" then i + 2
      else fbGo lines i
    | none => fbGo lines i

def find_break_point (lines : List String) : Nat :=
  fbGo lines (lines.length - 1)

/-- The `section_info` dictionary: `none` is the empty dictionary before
any header was seen (then the chunk keeps the document metadata's own
section fields); a value overrides all three section keys.  The stored
triple already carries `group(1).lower()` and `group(3).strip()` as in
the source. -/
def SectionInfo : Type := Option (String × String × String)

/-- Chunk emission: `{**doc.metadata, **section_info, 'chunk_type': 'semantic'}`. -/
def mkChunkDoc (meta : ChunkMeta) (sinfo : SectionInfo) (text : String) : Doc :=
  { page_content := text,
    metadata :=
      match sinfo with
      | none => { meta with chunk_type := some "semantic" }
      | some (ty, num, title) =>
        { meta with
          section_type := some ty
          section_number := some num
          section_title := some title
          chunk_type := some "semantic" } }

/-- Sum of Python `len(line)` over the retained overlap lines. -/
def sumStrLens (lines : List String) : Nat :=
  (lines.map String.length).sum

/-- The line loop of `_structured_chunking` for one document:
`current`/`clen`/`sinfo` mirror `current_chunk`, `current_length` and
`section_info`.  Every emission site keeps a chunk only when its trimmed
text is strictly longer than 50 characters. -/
def goLines (meta : ChunkMeta) (chunk_size chunk_overlap : Nat) :
    List String → List String → Nat → SectionInfo → List Doc
  | [], current, _clen, sinfo =>
    if current ≠ [] ∧ 50 < (pyStrip (strJoinNl current)).length
    then [mkChunkDoc meta sinfo (strJoinNl current)] else []
  | line :: rest, current, clen, sinfo =>
    match sectionMatch line with
    | some (ty, num, title) =>
      (if current ≠ [] ∧ 50 < (pyStrip (strJoinNl current)).length
       then [mkChunkDoc meta sinfo (strJoinNl current)] else []) ++
        goLines meta chunk_size chunk_overlap rest [line] line.length
          (some (pyLower ty, num, pyStrip title))
    | none =>
      let current' := current ++ [line]
      let clen' := clen + line.length
      if chunk_size < clen' ∧ 1 < current'.length then
        let bp := find_break_point current'
        let chunk_text := strJoinNl (current'.take bp)
        let kept := current'.drop (bp - chunk_overlap / 100)
        (if 50 < (pyStrip chunk_text).length
         then [mkChunkDoc meta sinfo chunk_text] else []) ++
          goLines meta chunk_size chunk_overlap rest kept (sumStrLens kept) sinfo
      else goLines meta chunk_size chunk_overlap rest current' clen' sinfo

/-- `_structured_chunking` applied to one document. -/
def processStructuredDoc (chunk_size chunk_overlap : Nat) (doc : Doc) : List Doc :=
  goLines doc.metadata chunk_size chunk_overlap (splitNl doc.page_content) [] 0 none

/-- `DocumentProcessor._structured_chunking(docs, chunk_size,
chunk_overlap)`. -/
def structured_chunking (docs : List Doc) (chunk_size chunk_overlap : Nat) : List Doc :=
  (docs.map (processStructuredDoc chunk_size chunk_overlap)).flatten

/-! ### Concrete example values used by witnesses and counterexamples -/

def wMetaGeneral : ChunkMeta := { emptyMeta with domain := some "general" }

/-- A fresh candidate chunk as `query_with_expanded_context` builds it. -/
def wChunk (t : String) (sim : ℚ) : Chunk :=
  { page_content := t, metadata := wMetaGeneral, similarity := sim,
    distance := some (1 - sim), confidence := min (sim + 1/5) 1,
    hybrid_score := none, rerank_score := none, score := none }

def wC1Chunks : List Chunk :=
  [wChunk "The equilibrium constant of the reaction equals 2.4 in this measurement" (9/10),
   wChunk "Rivers in the northern region flow towards the ocean during spring" (8/10)]

/-- One-candidate environment: a single document at distance 0.5 whose
domain matches the fallback target domain `general`. -/
def wC2Env : QueryEnv :=
  { redisCached := none, classifyResponse := none, collectionAvailable := true,
    queryResponse :=
      { documents := ["x"], metadatas := [wMetaGeneral], distances := [some (1/2)] },
    rerankerAvailable := false, rerankScores := [] }

/-- The chunk `wC2Env` retrieval produces: similarity `0.5`, domain
bonus `0.3`, length score `1/1000`, no quality bonus, no fact penalty. -/
def wC2Chunk : Chunk :=
  { page_content := "x", metadata := wMetaGeneral, similarity := 1/2,
    distance := some (1/2), confidence := 4/5, hybrid_score := none,
    rerank_score := none, score := some (8001/10000) }

/-! ## Helper lemmas -/

theorem levList_comm : ∀ xs ys : List Char, levList xs ys = levList ys xs
  | [], [] => rfl
  | [], _ :: _ => by simp [levList]
  | _ :: _, [] => by simp [levList]
  | x :: xs, y :: ys => by
    have h1 := levList_comm xs (y :: ys)
    have h2 := levList_comm (x :: xs) ys
    have h3 := levList_comm xs ys
    by_cases hxy : x = y
    · subst hxy
      simp [levList, h3]
    · have hyx : ¬ y = x := fun h => hxy h.symm
      simp only [levList, if_neg hxy, if_neg hyx]
      rw [h1, h2, h3]
      omega
  termination_by xs ys => xs.length + ys.length

theorem levenshtein_comm (a b : String) :
    levenshtein_distance a b = levenshtein_distance b a :=
  levList_comm a.data b.data

theorem keyInfoJaccard_comm (a b : String) :
    keyInfoJaccard a b = keyInfoJaccard b a := by
  unfold keyInfoJaccard
  rw [Finset.inter_comm, Finset.union_comm]

theorem keyInfoJaccard_nonneg (a b : String) : 0 ≤ keyInfoJaccard a b := by
  unfold keyInfoJaccard
  positivity

theorem semdup_false_jaccard_le (a b : String)
    (h : is_semantic_duplicate a b (9/10) = false) :
    keyInfoJaccard a b ≤ 9/10 := by
  unfold is_semantic_duplicate at h
  unfold keyInfoJaccard
  by_cases hE : extract_key_info a = ∅ ∨ extract_key_info b = ∅
  · rcases hE with hE | hE <;> simp [hE, Finset.empty_inter, Finset.inter_empty] <;> norm_num
  · simp only [if_neg hE] at h
    by_cases htot : 0 < (extract_key_info a ∪ extract_key_info b).card
    · simp only [if_pos htot, decide_eq_false_iff_not, not_lt] at h
      exact h
    · have hcard : (extract_key_info a ∪ extract_key_info b).card = 0 := by omega
      have hz : ((extract_key_info a ∪ extract_key_info b).card : ℚ) = 0 := by
        exact_mod_cast hcard
      rw [hz, div_zero]
      norm_num

/-! Sorting lemmas: membership and descending-pairwise order. -/

theorem mem_insertDesc (key : α → ℚ) (x a : α) :
    ∀ l, a ∈ insertDesc key x l ↔ a = x ∨ a ∈ l
  | [] => by simp [insertDesc]
  | y :: ys => by
    by_cases hk : key y ≤ key x
    · simp [insertDesc, hk]
    · simp only [insertDesc, if_neg hk, List.mem_cons, mem_insertDesc key x a ys]
      tauto

theorem mem_pySortDesc (key : α → ℚ) (a : α) :
    ∀ l, a ∈ pySortDesc key l ↔ a ∈ l
  | [] => by simp [pySortDesc]
  | x :: xs => by
    simp only [pySortDesc, mem_insertDesc, List.mem_cons, mem_pySortDesc key a xs]

theorem pairwise_insertDesc (key : α → ℚ) (x : α) :
    ∀ l, List.Pairwise (fun a b => key b ≤ key a) l →
      List.Pairwise (fun a b => key b ≤ key a) (insertDesc key x l)
  | [], _ => by simp [insertDesc]
  | y :: ys, h => by
    rcases List.pairwise_cons.mp h with ⟨hy, hys⟩
    by_cases hk : key y ≤ key x
    · simp only [insertDesc, if_pos hk]
      refine List.pairwise_cons.mpr ⟨?_, h⟩
      intro z hz
      rcases List.mem_cons.mp hz with rfl | hz
      · exact hk
      · exact le_trans (hy z hz) hk
    · simp only [insertDesc, if_neg hk]
      refine List.pairwise_cons.mpr ⟨?_, pairwise_insertDesc key x ys hys⟩
      intro z hz
      rcases (mem_insertDesc key x z ys).mp hz with rfl | hz
      · exact le_of_not_le hk
      · exact hy z hz

theorem pairwise_pySortDesc (key : α → ℚ) :
    ∀ l, List.Pairwise (fun a b => key b ≤ key a) (pySortDesc key l)
  | [] => by simp [pySortDesc]
  | x :: xs => pairwise_insertDesc key x _ (pairwise_pySortDesc key xs)

/-! Deduplication-walk lemmas. -/

theorem dedupWalk_pairwise (k : Nat) :
    ∀ rest acc, List.Pairwise (fun u v => isDupPair v u = false) acc →
      List.Pairwise (fun u v => isDupPair v u = false) (dedupWalk k acc rest)
  | [], acc, h => h
  | c :: rest, acc, h => by
    by_cases hdup : acc.any (fun u => isDupPair c u)
    · simp only [dedupWalk, hdup, if_true]
      split
      · exact h
      · exact dedupWalk_pairwise k rest acc h
    · have hall : ∀ u ∈ acc, isDupPair c u = false := by
        intro u hu
        have := (List.any_eq_false).mp (Bool.of_not_eq_true hdup) u hu
        simpa using this
      have hacc' : List.Pairwise (fun u v => isDupPair v u = false) (acc ++ [c]) := by
        refine List.pairwise_append.mpr ⟨h, List.pairwise_singleton _ _, ?_⟩
        intro u hu v hv
        rcases List.mem_singleton.mp hv with rfl
        exact hall u hu
      simp only [dedupWalk, hdup, if_false, Bool.false_eq_true]
      split
      · exact hacc'
      · exact dedupWalk_pairwise k rest (acc ++ [c]) hacc'

theorem dedupWalk_shape (k : Nat) :
    ∀ rest acc, ∃ s, dedupWalk k acc rest = acc ++ s ∧ s.Sublist rest
  | [], acc => ⟨[], by simp [dedupWalk]⟩
  | c :: rest, acc => by
    by_cases hdup : acc.any (fun u => isDupPair c u)
    · simp only [dedupWalk, hdup, if_true]
      split
      · exact ⟨[], by simp⟩
      · obtain ⟨s, hs, hsub⟩ := dedupWalk_shape k rest acc
        exact ⟨s, hs, hsub.cons c⟩
    · simp only [dedupWalk, hdup, Bool.false_eq_true, if_false]
      split
      · exact ⟨[c], rfl, (List.nil_sublist rest).cons₂ c⟩
      · obtain ⟨s, hs, hsub⟩ := dedupWalk_shape k rest (acc ++ [c])
        exact ⟨c :: s, by simpa using hs, hsub.cons₂ c⟩

theorem dedupWalk_length (k : Nat) :
    ∀ rest acc, acc.length < k → (dedupWalk k acc rest).length ≤ k
  | [], acc, h => le_of_lt h
  | c :: rest, acc, h => by
    have hlen : ∀ acc' : List Chunk, acc' = acc ∨ acc' = acc ++ [c] → acc'.length ≤ k := by
      rintro acc' (rfl | rfl)
      · exact le_of_lt h
      · simp only [List.length_append, List.length_singleton]
        omega
    by_cases hdup : acc.any (fun u => isDupPair c u)
    · simp only [dedupWalk, hdup, if_true]
      split
      · exact hlen acc (Or.inl rfl)
      · exact dedupWalk_length k rest acc h
    · simp only [dedupWalk, hdup, Bool.false_eq_true, if_false]
      split
      · exact hlen (acc ++ [c]) (Or.inr rfl)
      · next hlt =>
        refine dedupWalk_length k rest (acc ++ [c]) ?_
        simp only [List.length_append, List.length_singleton] at hlt ⊢
        omega

/-! Scoring-pass lemmas. -/

theorem scorePass_mem (domB : String → ℚ) :
    ∀ todo done (c : Chunk), c ∈ scorePass domB done todo →
      c ∈ done ∨ ∃ c₀ ∈ todo, ∃ s : ℚ,
        c = { c₀ with
              score := some s
              confidence := min (c₀.similarity + domB c₀.page_content) 1 }
  | [], done, c, hc => Or.inl hc
  | chunk :: rest, done, c, hc => by
    rcases scorePass_mem domB rest (done ++ [scoreOne domB (done ++ chunk :: rest) chunk]) c hc
      with hd | ⟨c₀, hc₀, s, hs⟩
    · rcases List.mem_append.mp hd with hd | hd
      · exact Or.inl hd
      · rcases List.mem_singleton.mp hd with rfl
        exact Or.inr ⟨chunk, List.mem_cons_self _ _, _, rfl⟩
    · exact Or.inr ⟨c₀, List.mem_cons_of_mem _ hc₀, s, hs⟩

theorem rerank_and_deduplicate_mem (chunks : List Chunk) (k : Nat) (c : Chunk)
    (hc : c ∈ rerank_and_deduplicate chunks k) :
    ∃ c₀ ∈ chunks, ∃ s : ℚ,
      c = { c₀ with
            score := some s
            confidence := min (c₀.similarity + domainBonusTab chunks c₀.page_content) 1 } := by
  obtain ⟨s, hs, hsub⟩ := dedupWalk_shape k
    (pySortDesc (fun c => c.score.getD 0) (scoreChunks chunks)) []
  rw [rerank_and_deduplicate, hs, List.nil_append] at hc
  have hsorted := hsub.subset hc
  have hscored := (mem_pySortDesc _ c _).mp hsorted
  rcases scorePass_mem (domainBonusTab chunks) chunks [] c hscored with hd | h
  · cases hd
  · exact h

/-! Pipeline membership lemmas feeding the confidence bounds. -/

theorem buildChunks_sim_lb (target : String) :
    ∀ ds ms ts (c : Chunk), c ∈ buildChunks target ds ms ts → 1/10 ≤ c.similarity
  | [], _, _, c, hc => by simp [buildChunks] at hc
  | _ :: _, [], _, c, hc => by simp [buildChunks] at hc
  | _ :: _, _ :: _, [], c, hc => by simp [buildChunks] at hc
  | d :: ds, m :: ms, t :: ts, c, hc => by
    simp only [buildChunks, List.mem_append] at hc
    rcases hc with hc | hc
    · by_cases hb : m.domain.getD "unknown" = target
      · rw [if_pos hb] at hc
        split at hc
        · exact absurd hc (List.not_mem_nil c)
        · next hcond =>
          rcases List.mem_singleton.mp hc with rfl
          have h2 := (le_min_iff.mp (not_lt.mp hcond)).1
          cases t with
          | some dd =>
            have h2' : (3:ℚ)/10 ≤ (1 - dd) + 1/5 := h2
            show (1:ℚ)/10 ≤ 1 - dd
            linarith
          | none =>
            show (1:ℚ)/10 ≤ 1
            norm_num
      · rw [if_neg hb] at hc
        split at hc
        · exact absurd hc (List.not_mem_nil c)
        · next hcond =>
          rcases List.mem_singleton.mp hc with rfl
          have h2 := (le_min_iff.mp (not_lt.mp hcond)).1
          cases t with
          | some dd =>
            have h2' : (3:ℚ)/10 ≤ (1 - dd) + 0 := h2
            show (1:ℚ)/10 ≤ 1 - dd
            linarith
          | none =>
            show (1:ℚ)/10 ≤ 1
            norm_num
    · exact buildChunks_sim_lb target ds ms ts c hc

theorem apply_hybrid_search_mem (q : String) (chunks : List Chunk) (n : Nat) (c : Chunk)
    (hc : c ∈ apply_hybrid_search q chunks n) :
    ∃ c₀ ∈ chunks, c.similarity = c₀.similarity := by
  unfold apply_hybrid_search at hc
  have h1 := List.mem_of_mem_take hc
  have h2 := (mem_pySortDesc _ c _).mp h1
  rcases List.mem_map.mp h2 with ⟨c₀, hc₀, rfl⟩
  exact ⟨c₀, hc₀, rfl⟩

theorem applyRerankScores_mem :
    ∀ (cs : List Chunk) (ss : List ℚ) (c : Chunk), c ∈ applyRerankScores cs ss →
      ∃ c₀ ∈ cs, c.similarity = c₀.similarity
  | [], _, c, hc => by simp [applyRerankScores] at hc
  | c₁ :: cs, [], c, hc => ⟨c, by simpa [applyRerankScores] using hc, rfl⟩
  | c₁ :: cs, s :: ss, c, hc => by
    simp only [applyRerankScores, List.mem_cons] at hc
    rcases hc with rfl | hc
    · exact ⟨c₁, List.mem_cons_self _ _, rfl⟩
    · rcases applyRerankScores_mem cs ss c hc with ⟨c₀, h, e⟩
      exact ⟨c₀, List.mem_cons_of_mem _ h, e⟩

theorem rerank_chunks_mem (scores : List ℚ) (chunks : List Chunk) (k : Nat) (c : Chunk)
    (hc : c ∈ rerank_chunks scores chunks k) :
    ∃ c₀ ∈ chunks, c.similarity = c₀.similarity := by
  unfold rerank_chunks at hc
  split at hc
  · exact ⟨c, List.mem_of_mem_take hc, rfl⟩
  · have h1 := List.mem_of_mem_take hc
    have h2 := (mem_pySortDesc _ c _).mp h1
    exact applyRerankScores_mem chunks scores c h2

theorem queryCandidates_sim_lb (env : QueryEnv) (prompt : String) (n_results : Nat)
    (domain_filter : Option String) (c : Chunk)
    (hc : c ∈ queryCandidates env prompt n_results domain_filter) :
    1/10 ≤ c.similarity := by
  unfold queryCandidates at hc
  have step : ∀ c' : Chunk,
      c' ∈ (if 3 < (buildChunks (targetDomain env domain_filter)
              env.queryResponse.documents env.queryResponse.metadatas
              env.queryResponse.distances).length then
            apply_hybrid_search prompt (buildChunks (targetDomain env domain_filter)
              env.queryResponse.documents env.queryResponse.metadatas
              env.queryResponse.distances) n_results
          else buildChunks (targetDomain env domain_filter)
              env.queryResponse.documents env.queryResponse.metadatas
              env.queryResponse.distances) →
      1/10 ≤ c'.similarity := by
    intro c' hc'
    split at hc'
    · rcases apply_hybrid_search_mem _ _ _ _ hc' with ⟨c₀, h₀, e⟩
      rw [e]
      exact buildChunks_sim_lb _ _ _ _ _ h₀
    · exact buildChunks_sim_lb _ _ _ _ _ hc'
  split at hc
  · rcases rerank_chunks_mem _ _ _ _ hc with ⟨c₁, h₁, e₁⟩
    rw [e₁]
    exact step c₁ h₁
  · exact step c hc

theorem domainBonusTab_nonneg (chunks : List Chunk) (content : String) :
    0 ≤ domainBonusTab chunks content := by
  unfold domainBonusTab
  split <;> norm_num

/-! ## Claim theorems -/

/-- C1: in every result of `VectorStore._rerank_and_deduplicate`, any two
returned chunks (earlier/later pair) have non-identical texts, Levenshtein
edit distance at least 10, and key-info Jaccard overlap at most 0.9; the
deduplication walk accepts at most `top_k = n_results` chunks. -/
theorem rerank_and_deduplicate_pairwise_unique (chunks : List Chunk) (top_k : Nat)
    (htop : 0 < top_k) :
    List.Pairwise (fun u v =>
        u.page_content ≠ v.page_content ∧
        10 ≤ levenshtein_distance u.page_content v.page_content ∧
        keyInfoJaccard u.page_content v.page_content ≤ 9/10)
      (rerank_and_deduplicate chunks top_k) ∧
    (rerank_and_deduplicate chunks top_k).length ≤ top_k := by
  constructor
  · have hp := dedupWalk_pairwise top_k
      (pySortDesc (fun c => c.score.getD 0) (scoreChunks chunks)) [] List.Pairwise.nil
    rw [rerank_and_deduplicate]
    refine hp.imp ?_
    intro u v h
    simp only [isDupPair, Bool.or_eq_false_iff] at h
    obtain ⟨⟨h1, h2⟩, h3⟩ := h
    refine ⟨?_, ?_, ?_⟩
    · exact (beq_eq_false_iff_ne.mp h1).symm
    · have hle := Nat.le_of_not_lt (of_decide_eq_false h2)
      rwa [levenshtein_comm] at hle
    · have := semdup_false_jaccard_le _ _ h3
      rwa [keyInfoJaccard_comm] at this
  · refine dedupWalk_length top_k _ [] ?_
    simpa using htop

/-- Witness for C1 at a concrete two-candidate list. -/
theorem rerank_and_deduplicate_pairwise_unique_witness :
    0 < 2 ∧
      (List.Pairwise (fun u v =>
          u.page_content ≠ v.page_content ∧
          10 ≤ levenshtein_distance u.page_content v.page_content ∧
          keyInfoJaccard u.page_content v.page_content ≤ 9/10)
        (rerank_and_deduplicate wC1Chunks 2) ∧
      (rerank_and_deduplicate wC1Chunks 2).length ≤ 2) :=
  ⟨by decide, rerank_and_deduplicate_pairwise_unique wC1Chunks 2 (by decide)⟩

/-- C2: in a computed retrieval result, every returned chunk's confidence
equals `min(similarity + domain_bonus, 1.0)` and lies in `[0, 1]` (every
surviving candidate passed the `enhanced_similarity ≥ 0.3` filter of
`query_with_expanded_context`), and the final scores are monotonically
non-increasing in the returned order (the deduplication walk preserves
the sort by score). -/
theorem query_confidence_bounds_and_order (env : QueryEnv) (prompt : String)
    (n_results : Nat) (domain_filter : Option String) (c : Chunk)
    (hc : c ∈ queryReranked env prompt n_results domain_filter) :
    (c.confidence =
        min (c.similarity +
          domainBonusTab (queryCandidates env prompt n_results domain_filter)
            c.page_content) 1 ∧
      0 ≤ c.confidence ∧ c.confidence ≤ 1) ∧
    List.Pairwise (fun u v => v.score.getD 0 ≤ u.score.getD 0)
      (queryReranked env prompt n_results domain_filter) := by
  unfold queryReranked at hc
  obtain ⟨c₀, hc₀, s, rfl⟩ := rerank_and_deduplicate_mem _ _ c hc
  have hsim := queryCandidates_sim_lb env prompt n_results domain_filter c₀ hc₀
  have hbonus := domainBonusTab_nonneg
    (queryCandidates env prompt n_results domain_filter) c₀.page_content
  refine ⟨⟨rfl, ?_, ?_⟩, ?_⟩
  · refine le_min ?_ (by norm_num)
    linarith
  · exact min_le_right _ _
  · unfold queryReranked rerank_and_deduplicate
    obtain ⟨s', hs', hsub⟩ := dedupWalk_shape n_results
      (pySortDesc (fun c => c.score.getD 0)
        (scoreChunks (queryCandidates env prompt n_results domain_filter))) []
    rw [hs', List.nil_append]
    exact (pairwise_pySortDesc _ _).sublist hsub

unseal Rat.add Rat.mul Rat.sub Rat.inv in
/-- Witness for C2 at the concrete one-candidate environment. -/
theorem query_confidence_bounds_and_order_witness :
    (wC2Chunk.confidence =
        min (wC2Chunk.similarity +
          domainBonusTab (queryCandidates wC2Env "q" 3 none) wC2Chunk.page_content) 1 ∧
      0 ≤ wC2Chunk.confidence ∧ wC2Chunk.confidence ≤ 1) ∧
    List.Pairwise (fun u v => v.score.getD 0 ≤ u.score.getD 0)
      (queryReranked wC2Env "q" 3 none) :=
  query_confidence_bounds_and_order wC2Env "q" 3 none wC2Chunk (by decide)

/-- C10: with all collaborator responses equal (the classifier response,
the Redis query-cache response, the collection response and the reranker
scores fixed by the environment), `query_with_expanded_context` computes
the same documents, metadatas, ids and sources for every pair of values
of the `expand` parameter: `expand` flows only into the cache key. -/
theorem query_expand_independent (env : QueryEnv) (prompt : String) (n_results : Nat)
    (e₁ e₂ : Nat) (filename domain_filter session_id : Option String) :
    (query_with_expanded_context env prompt n_results e₁ filename domain_filter
        session_id).documents =
      (query_with_expanded_context env prompt n_results e₂ filename domain_filter
        session_id).documents ∧
    (query_with_expanded_context env prompt n_results e₁ filename domain_filter
        session_id).metadatas =
      (query_with_expanded_context env prompt n_results e₂ filename domain_filter
        session_id).metadatas ∧
    (query_with_expanded_context env prompt n_results e₁ filename domain_filter
        session_id).ids =
      (query_with_expanded_context env prompt n_results e₂ filename domain_filter
        session_id).ids ∧
    (query_with_expanded_context env prompt n_results e₁ filename domain_filter
        session_id).sources =
      (query_with_expanded_context env prompt n_results e₂ filename domain_filter
        session_id).sources := by
  cases h : env.redisCached <;> simp [query_with_expanded_context, h]

/-! Streaming-frame lemmas. -/

theorem streaming_frame_not_terminal (w : String) :
    isTerminalFrame { answer := w, status := "streaming" } = false := rfl

theorem word_stream_terminal_count (tokens : List String) :
    (word_stream tokens).countP (fun f => isTerminalFrame f) = 1 := by
  unfold word_stream
  rw [List.countP_append]
  have h0 : (tokens.map (fun w => ({ answer := w, status := "streaming" } : Frame))).countP
      (fun f => isTerminalFrame f) = 0 := by
    rw [List.countP_eq_zero]
    intro f hf
    rcases List.mem_map.mp hf with ⟨w, _, rfl⟩
    simp [streaming_frame_not_terminal]
  rw [h0]
  rfl

theorem word_stream_getLast (tokens : List String) :
    (word_stream tokens).getLast? = some { answer := "", status := "success" } := by
  unfold word_stream
  exact List.getLast?_concat _

theorem word_stream_filter (tokens : List String) :
    (word_stream tokens).filter (fun f => isTerminalFrame f) =
      [{ answer := "", status := "success" }] := by
  unfold word_stream
  rw [List.filter_append]
  have h0 : (tokens.map (fun w => ({ answer := w, status := "streaming" } : Frame))).filter
      (fun f => isTerminalFrame f) = [] := by
    rw [List.filter_eq_nil_iff]
    intro f hf
    rcases List.mem_map.mp hf with ⟨w, _, rfl⟩
    simp [streaming_frame_not_terminal]
  rw [h0]
  rfl

/-- C3 counterexample: a `/query/stream` request with a non-empty
knowledge base and an attached file of unsupported MIME type is answered
with a plain 400 JSON body — zero terminal frames are emitted, not
exactly one. -/
theorem stream_unsupported_file_emits_no_frame :
    query_rag_stream
        { pipelineExc := none
          listMetas := [wMetaGeneral]
          attached := some
            { mimeSupported := false
              tooLarge := false
              ocrFails := false
              extractedChunks := []
              filename := "a.xyz" }
          context := "some context"
          tokens := [] } = .json 400 ∧
    terminalFrameCount
        (query_rag_stream
          { pipelineExc := none
            listMetas := [wMetaGeneral]
            attached := some
              { mimeSupported := false
                tooLarge := false
                ocrFails := false
                extractedChunks := []
                filename := "a.xyz" }
            context := "some context"
            tokens := [] }) = 0 := by
  constructor <;> decide

theorem streamTail_cases (env : StreamEnv) (extra : String) :
    streamTail env extra = .stream [{ answer := noContextMsg, status := "no_context" }] ∨
    streamTail env extra = .stream (word_stream env.tokens) := by
  by_cases h : (pyStrip (if 3000 < (env.context ++ extra).length
      then String.mk ((env.context ++ extra).data.take 3000)
      else env.context ++ extra) == "") = true
  · exact Or.inl (by simp only [streamTail]; rw [if_pos h])
  · exact Or.inr (by simp only [streamTail]; rw [if_neg h])

/-- The streaming endpoint's possible responses: a 400/500 JSON body
from attached-file validation, or one of the four frame streams. -/
theorem query_rag_stream_cases (env : StreamEnv) :
    query_rag_stream env = .json 400 ∨ query_rag_stream env = .json 500 ∨
    (∃ e, query_rag_stream env =
      .stream [{ answer := "[Error: " ++ e ++ "]", status := "error" }]) ∨
    query_rag_stream env = .stream [{ answer := emptyKbMsg, status := "empty_kb" }] ∨
    query_rag_stream env = .stream [{ answer := noContextMsg, status := "no_context" }] ∨
    query_rag_stream env = .stream (word_stream env.tokens) := by
  cases hexc : env.pipelineExc with
  | some e =>
    exact Or.inr (Or.inr (Or.inl ⟨e, by simp only [query_rag_stream, hexc]⟩))
  | none =>
    by_cases hkb : list_documents env.listMetas = []
    · refine Or.inr (Or.inr (Or.inr (Or.inl ?_)))
      simp only [query_rag_stream, hexc, if_pos hkb]
    · cases hatt : env.attached with
      | none =>
        have hq : query_rag_stream env = streamTail env "" := by
          simp only [query_rag_stream, hexc, hatt, if_neg hkb]
        rcases streamTail_cases env "" with h | h
        · exact Or.inr (Or.inr (Or.inr (Or.inr (Or.inl (hq.trans h)))))
        · exact Or.inr (Or.inr (Or.inr (Or.inr (Or.inr (hq.trans h)))))
      | some f =>
        have hq : query_rag_stream env =
            (if !f.mimeSupported then StreamResult.json 400
             else if f.tooLarge then StreamResult.json 400
             else if f.ocrFails then StreamResult.json 500
             else if f.extractedChunks.isEmpty then StreamResult.json 400
             else streamTail env ("Context from " ++ f.filename ++ " (attached):\n" ++
               strJoinNl f.extractedChunks ++ "\n\n")) := by
          simp only [query_rag_stream, hexc, hatt, if_neg hkb]
        rw [hq]
        by_cases hm : f.mimeSupported
        · rw [if_neg (by simp [hm])]
          by_cases hlarge : f.tooLarge
          · rw [if_pos hlarge]
            exact Or.inl rfl
          · rw [if_neg hlarge]
            by_cases hocr : f.ocrFails
            · rw [if_pos hocr]
              exact Or.inr (Or.inl rfl)
            · rw [if_neg hocr]
              by_cases hch : f.extractedChunks.isEmpty
              · rw [if_pos hch]
                exact Or.inl rfl
              · rw [if_neg hch]
                rcases streamTail_cases env ("Context from " ++ f.filename ++
                    " (attached):\n" ++ strJoinNl f.extractedChunks ++ "\n\n") with h | h <;>
                  rw [h]
                · exact Or.inr (Or.inr (Or.inr (Or.inr (Or.inl rfl))))
                · exact Or.inr (Or.inr (Or.inr (Or.inr (Or.inr rfl))))
        · rw [if_pos (by simp [hm])]
          exact Or.inl rfl

/-- C3 (amended): every response of `/query/stream` that actually
streams emits exactly one terminal frame, that frame's status is one of
`success`, `error`, `empty_kb`, `no_context`, and it is the last frame
(the token-streaming path emits it after the token frames); requests
rejected during attached-file validation return a plain 400/500 JSON
body with no frames at all. -/
theorem stream_exactly_one_terminal_frame (env : StreamEnv) :
    match query_rag_stream env with
    | .json code => code = 400 ∨ code = 500
    | .stream fs =>
        fs.countP (fun f => isTerminalFrame f) = 1 ∧
        (fs.filter (fun f => isTerminalFrame f)).all
          (fun f => f.status == "success" || f.status == "error" ||
            f.status == "empty_kb" || f.status == "no_context") = true ∧
        (fs.getLast?.map (fun f => isTerminalFrame f)) = some true := by
  rcases query_rag_stream_cases env with h | h | ⟨e, h⟩ | h | h | h <;> rw [h]
  · exact Or.inl rfl
  · exact Or.inr rfl
  · exact ⟨by simp [List.countP_cons, List.countP_nil, isTerminalFrame],
      by simp [isTerminalFrame], by simp [isTerminalFrame]⟩
  · exact ⟨by simp [List.countP_cons, List.countP_nil, isTerminalFrame],
      by simp [isTerminalFrame], by simp [isTerminalFrame]⟩
  · exact ⟨by simp [List.countP_cons, List.countP_nil, isTerminalFrame],
      by simp [isTerminalFrame], by simp [isTerminalFrame]⟩
  · refine ⟨word_stream_terminal_count env.tokens, ?_, ?_⟩
    · rw [word_stream_filter]
      decide
    · rw [word_stream_getLast]
      rfl

/-- C6 counterexample: on a zero-token upstream stream the fixed
no-answer message is assigned to the local accumulator, but the single
delivered frame carries `answer: ""` — the substitute message appears in
no frame delivered to the client. -/
theorem word_stream_zero_tokens_no_substitute :
    word_stream [] = [{ answer := "", status := "success" }] ∧
    wordStreamAccum [] = noAnswerMsg ∧
    (word_stream []).all (fun f => f.answer != noAnswerMsg) = true := by
  refine ⟨rfl, ?_, by decide⟩
  decide

/-- C6 (amended): `word_stream` emits one `streaming` frame per upstream
token and then a single final frame whose `answer` field is always the
empty string; on zero tokens the fixed no-answer message is assigned
only to the local accumulator and appears in no delivered frame. -/
theorem word_stream_final_frame_empty (tokens : List String) :
    word_stream tokens =
      tokens.map (fun w => { answer := w, status := "streaming" }) ++
        [{ answer := "", status := "success" }] ∧
    (tokens = [] →
      wordStreamAccum tokens = noAnswerMsg ∧
      (word_stream tokens).all (fun f => f.answer != noAnswerMsg) = true) := by
  refine ⟨rfl, ?_⟩
  rintro rfl
  exact ⟨by decide, by decide⟩

/-- Witness for the C6 amended claim at the zero-token stream. -/
theorem word_stream_final_frame_empty_witness :
    word_stream [] =
      ([] : List String).map (fun w => { answer := w, status := "streaming" }) ++
        [{ answer := "", status := "success" }] ∧
    (wordStreamAccum [] = noAnswerMsg ∧
      (word_stream []).all (fun f => f.answer != noAnswerMsg) = true) :=
  ⟨(word_stream_final_frame_empty []).1, (word_stream_final_frame_empty []).2 rfl⟩

/-- C5 counterexample: serving `POST /query` on an empty index with a
reachable collection issues one embedding-endpoint call — the broad
`list_documents` query embeds its probe text — not zero. -/
theorem query_rag_empty_check_embeds_once :
    (query_rag_empty_check { collectionAvailable := true, listMetas := [] }).embedCalls = 1 := by
  decide

/-- C5 (amended): a `POST /query` served while the index holds zero
documents short-circuits with the fixed empty-knowledge-base message and
status `empty_kb` and issues no LLM call; the emptiness check itself
issues exactly one broad vector query, which embeds the probe text
(one embedding call). -/
theorem query_rag_empty_kb_short_circuit (env : QueryRagEnv)
    (hav : env.collectionAvailable = true) (hempty : env.listMetas = []) :
    query_rag_empty_check env =
      { response := some emptyKbResponse, embedCalls := 1, llmCalls := 0 } := by
  unfold query_rag_empty_check
  rw [hav, hempty]
  simp [list_documents, listDocsGo]

/-- Witness for the C5 amended claim. -/
theorem query_rag_empty_kb_short_circuit_witness :
    query_rag_empty_check { collectionAvailable := true, listMetas := [] } =
      { response := some emptyKbResponse, embedCalls := 1, llmCalls := 0 } :=
  query_rag_empty_kb_short_circuit
    { collectionAvailable := true, listMetas := [] } rfl rfl

/-- C4: the `/upload` handler resolves `cache.get_file_hash` on the
`rag_core.cache` module before its `try` block; no such attribute is
defined there, so every upload of a supported file — here the concrete
`doc.pdf` — raises `AttributeError` and no ingest (in particular no
second, cache-hitting ingest) ever completes. -/
theorem upload_document_raises_attribute_error :
    upload_document "doc.pdf" = .raised := by decide

/-! Structured-chunker lemmas. -/

theorem goLines_min_length (meta : ChunkMeta) (cs co : Nat) :
    ∀ lines current clen sinfo (c : Doc),
      c ∈ goLines meta cs co lines current clen sinfo →
      50 < (pyStrip c.page_content).length
  | [], current, _clen, sinfo, c, hc => by
    unfold goLines at hc
    split at hc
    · next h =>
      rcases List.mem_singleton.mp hc with rfl
      simpa [mkChunkDoc] using h.2
    · exact absurd hc (List.not_mem_nil c)
  | line :: rest, current, clen, sinfo, c, hc => by
    unfold goLines at hc
    cases hsm : sectionMatch line with
    | some info =>
      obtain ⟨ty, num, title⟩ := info
      simp only [hsm] at hc
      rcases List.mem_append.mp hc with hc | hc
      · split at hc
        · next h =>
          rcases List.mem_singleton.mp hc with rfl
          simpa [mkChunkDoc] using h.2
        · exact absurd hc (List.not_mem_nil c)
      · exact goLines_min_length meta cs co rest [line] line.length _ c hc
    | none =>
      simp only [hsm] at hc
      split at hc
      · rcases List.mem_append.mp hc with hc | hc
        · split at hc
          · next h =>
            rcases List.mem_singleton.mp hc with rfl
            simpa [mkChunkDoc] using h
          · exact absurd hc (List.not_mem_nil c)
        · exact goLines_min_length meta cs co rest _ _ _ c hc
      · exact goLines_min_length meta cs co rest _ _ _ c hc

/-- C9 counterexample: a buffer whose trimmed text is exactly 50
characters long is dropped by `_structured_chunking` (the guard keeps a
chunk only when `len(chunk_text.strip()) > 50`), so the claim's
retained-at-50 half fails at this concrete document. -/
theorem structured_chunking_drops_exactly_50 :
    structured_chunking
        [{ page_content := String.mk (List.replicate 50 'a'), metadata := emptyMeta }]
        800 400 = [] := by
  decide

/-- C9 (amended): every chunk emitted by `_structured_chunking` has a
trimmed text strictly longer than 50 characters; in particular a 51-char
chunk is retained while 50- and 49-char chunks are dropped. -/
theorem structured_chunking_min_length (docs : List Doc) (cs co : Nat) (c : Doc)
    (hc : c ∈ structured_chunking docs cs co) :
    50 < (pyStrip c.page_content).length := by
  unfold structured_chunking at hc
  rcases List.mem_flatten.mp hc with ⟨l, hl, hcl⟩
  rcases List.mem_map.mp hl with ⟨doc, _, rfl⟩
  exact goLines_min_length doc.metadata cs co _ _ _ _ c hcl

/-! Batched-upsert lemmas. -/

theorem batchesOf50_cons (x : α) (xs : List α) :
    batchesOf50 (x :: xs) = ((x :: xs).take 50) :: batchesOf50 ((x :: xs).drop 50) := by
  simp [batchesOf50]

theorem addGo_ok (env : AddEnv) (fname : String) (embs : Option (List (List ℚ)))
    (hok : ∀ b, env.upsertFails b = false) :
    ∀ remaining batchIdx i,
      (addGo env fname embs batchIdx i (i + remaining.length) remaining).success = true ∧
      (addGo env fname embs batchIdx i (i + remaining.length) remaining).calls.map
          (fun u => u.documents) =
        batchesOf50 (remaining.map (fun s => s.page_content)) ∧
      (addGo env fname embs batchIdx i (i + remaining.length) remaining).sleeps =
        (addGo env fname embs batchIdx i (i + remaining.length) remaining).calls.length - 1
  | [], batchIdx, i => by
    simp [addGo, batchesOf50]
  | d :: ds, batchIdx, i => by
    by_cases hlen : (d :: ds).length ≤ 50
    · have hrest : (d :: ds).drop 50 = [] := List.drop_eq_nil_of_le hlen
      have htake : (d :: ds).take 50 = d :: ds := List.take_of_length_le hlen
      simp only [addGo, hok, Bool.false_eq_true, if_false, hrest, htake]
      refine ⟨trivial, ?_, ?_⟩
      · have hthis : batchesOf50 ((d :: ds).map (fun s => s.page_content)) =
            [(d :: ds).map (fun s => s.page_content)] := by
          have hl : ((d :: ds).map (fun s => s.page_content)).length ≤ 50 := by
            simpa using hlen
          rw [List.map_cons, batchesOf50_cons, ← List.map_cons,
            List.take_of_length_le hl, List.drop_eq_nil_of_le hl]
          simp [batchesOf50]
        rw [hthis]
        simp
      · simp
    · push_neg at hlen
      have hdlen : ((d :: ds).drop 50).length = (d :: ds).length - 50 := by
        simp [List.length_drop]
      have htot : i + (d :: ds).length = (i + 50) + ((d :: ds).drop 50).length := by
        rw [hdlen]
        omega
      have hrec := addGo_ok env fname embs hok ((d :: ds).drop 50) (batchIdx + 1) (i + 50)
      have htakelen : ((d :: ds).take 50).length = 50 := by
        rw [List.length_take]
        omega
      rw [htot]
      simp only [addGo, hok, Bool.false_eq_true, if_false]
      refine ⟨hrec.1, ?_, ?_⟩
      · have hbatch : batchesOf50 ((d :: ds).map (fun s => s.page_content)) =
            (((d :: ds).map (fun s => s.page_content)).take 50) ::
              batchesOf50 (((d :: ds).map (fun s => s.page_content)).drop 50) := by
          rw [List.map_cons, batchesOf50_cons]
        rw [List.map_cons, hbatch, hrec.2.1, List.map_drop, ← List.map_take]
      · have hcond : i + ((d :: ds).take 50).length < (i + 50) + ((d :: ds).drop 50).length := by

          rw [htakelen, hdlen]
          omega
        rw [if_pos hcond]
        have hlen1 : 1 ≤ (addGo env fname embs (batchIdx + 1) (i + 50)
            ((i + 50) + ((d :: ds).drop 50).length) ((d :: ds).drop 50)).calls.length := by
          have hm := hrec.2.1
          have : (batchesOf50 (((d :: ds).drop 50).map (fun s => s.page_content))).length =
              (addGo env fname embs (batchIdx + 1) (i + 50)
                ((i + 50) + ((d :: ds).drop 50).length) ((d :: ds).drop 50)).calls.length := by
            rw [← hm, List.length_map]
          cases hrem : ((d :: ds).drop 50).map (fun s => s.page_content) with
          | nil =>
            exfalso
            have : ((d :: ds).drop 50).length = 0 := by
              have := congrArg List.length hrem
              simpa using this
            omega
          | cons x xs =>
            rw [hrem, batchesOf50_cons] at this
            simp only [List.length_cons] at this
            omega
        have hsleep := hrec.2.2
        simp only [List.length_cons]
        omega
  termination_by remaining => remaining.length
  decreasing_by simp [List.length_drop]; omega

theorem addGo_fail (env : AddEnv) (fname : String) (embs : Option (List (List ℚ))) :
    ∀ remaining batchIdx i total k,
      env.upsertFails (batchIdx + k) = true →
      (∀ j, j < k → env.upsertFails (batchIdx + j) = false) →
      k * 50 < remaining.length →
      (addGo env fname embs batchIdx i total remaining).success = false ∧
      (addGo env fname embs batchIdx i total remaining).calls.length = k + 1
  | [], _, _, _, k, _, _, hklen => by simp at hklen
  | d :: ds, batchIdx, i, total, k, hfail, hbefore, hklen => by
    cases k with
    | zero =>
      have h0 : env.upsertFails batchIdx = true := by simpa using hfail
      simp [addGo, h0]
    | succ k' =>
      have h0 : env.upsertFails batchIdx = false := by
        simpa using hbefore 0 (Nat.succ_pos k')
      have hrec := addGo_fail env fname embs ((d :: ds).drop 50) (batchIdx + 1) (i + 50)
        total k'
        (by rwa [show batchIdx + 1 + k' = batchIdx + (k' + 1) by omega])
        (fun j hj => by
          have := hbefore (j + 1) (by omega)
          rwa [show batchIdx + (j + 1) = batchIdx + 1 + j by omega] at this)
        (by simp only [List.length_drop]; omega)
      simp only [addGo, h0, Bool.false_eq_true, if_false]
      refine ⟨hrec.1, ?_⟩
      simp only [List.length_cons, hrec.2]
  termination_by remaining => remaining.length
  decreasing_by simp [List.length_drop]; omega

/-- C7 counterexample: with an `upsert` that always raises, a
single-chunk insert performs exactly one upsert attempt — it is not
retried up to 3 attempts — and the function swallows the error and
returns `False` to the caller instead of propagating it. -/
theorem add_to_vector_collection_no_retry :
    (add_to_vector_collection { collectionAvailable := true, upsertFails := fun _ => true }
        [{ page_content := "hello", metadata := emptyMeta }] "f.pdf" none).success = false ∧
    (add_to_vector_collection { collectionAvailable := true, upsertFails := fun _ => true }
        [{ page_content := "hello", metadata := emptyMeta }] "f.pdf" none).calls.length = 1 := by
  have h := addGo_fail { collectionAvailable := true, upsertFails := fun _ => true }
    "f.pdf" none [{ page_content := "hello", metadata := emptyMeta }] 0 0 1 0 rfl
    (fun j hj => absurd hj (Nat.not_lt_zero j)) (by simp)
  exact ⟨by simpa [add_to_vector_collection] using h.1,
    by simpa [add_to_vector_collection] using h.2⟩

/-- C7 (amended): `add_to_vector_collection` partitions the chunks into
batches of 50 and sleeps once between consecutive batches (never after
the last); but a failing batch is attempted exactly once — the raised
error is caught by the function's own handler, logged with the batch
index, and turned into the return value `False`, so no per-batch retry
happens and no error propagates to the caller (the function-level
tenacity retry never fires because no exception escapes). -/
theorem add_to_vector_collection_batching (env : AddEnv) (splits : List Doc)
    (fname : String) (embs : Option (List (List ℚ)))
    (hav : env.collectionAvailable = true) :
    ((∀ b, env.upsertFails b = false) →
      (add_to_vector_collection env splits fname embs).success = true ∧
      (add_to_vector_collection env splits fname embs).calls.map (fun u => u.documents) =
        batchesOf50 (splits.map (fun s => s.page_content)) ∧
      (add_to_vector_collection env splits fname embs).sleeps =
        (add_to_vector_collection env splits fname embs).calls.length - 1) ∧
    (∀ k, env.upsertFails k = true → (∀ j, j < k → env.upsertFails j = false) →
      k * 50 < splits.length →
      (add_to_vector_collection env splits fname embs).success = false ∧
      (add_to_vector_collection env splits fname embs).calls.length = k + 1) := by
  have hunf : add_to_vector_collection env splits fname embs =
      addGo env fname embs 0 0 splits.length splits := by
    simp [add_to_vector_collection, hav]
  constructor
  · intro hok
    have h := addGo_ok env fname embs hok splits 0 0
    rw [hunf]
    simpa using h
  · intro k hk hbef hklen
    have h := addGo_fail env fname embs splits 0 0 splits.length k (by simpa using hk)
      (fun j hj => by simpa using hbef j hj) hklen
    rw [hunf]
    exact h

/-- Witness for the C7 amended claim: two chunks form one batch, upsert
succeeds once, and no pacing sleep is executed. -/
theorem add_to_vector_collection_batching_witness :
    (add_to_vector_collection { collectionAvailable := true, upsertFails := fun _ => false }
        [{ page_content := "alpha", metadata := emptyMeta },
         { page_content := "beta", metadata := emptyMeta }] "f.pdf" none).success = true ∧
    (add_to_vector_collection { collectionAvailable := true, upsertFails := fun _ => false }
        [{ page_content := "alpha", metadata := emptyMeta },
         { page_content := "beta", metadata := emptyMeta }] "f.pdf" none).calls.map
        (fun u => u.documents) =
      batchesOf50 (([{ page_content := "alpha", metadata := emptyMeta },
         { page_content := "beta", metadata := emptyMeta }] : List Doc).map
        (fun s => s.page_content)) ∧
    (add_to_vector_collection { collectionAvailable := true, upsertFails := fun _ => false }
        [{ page_content := "alpha", metadata := emptyMeta },
         { page_content := "beta", metadata := emptyMeta }] "f.pdf" none).sleeps =
      (add_to_vector_collection { collectionAvailable := true, upsertFails := fun _ => false }
        [{ page_content := "alpha", metadata := emptyMeta },
         { page_content := "beta", metadata := emptyMeta }] "f.pdf" none).calls.length - 1 :=
  (add_to_vector_collection_batching
    { collectionAvailable := true, upsertFails := fun _ => false }
    [{ page_content := "alpha", metadata := emptyMeta },
     { page_content := "beta", metadata := emptyMeta }] "f.pdf" none rfl).1
    (fun _ => rfl)

/-- Witness for the C9 amended claim: a 51-character document is
retained as one semantic chunk. -/
theorem structured_chunking_min_length_witness :
    50 < (pyStrip
      (Doc.page_content
        { page_content := String.mk (List.replicate 51 'a'),
          metadata := { emptyMeta with chunk_type := some "semantic" } })).length :=
  structured_chunking_min_length
    [{ page_content := String.mk (List.replicate 51 'a'), metadata := emptyMeta }] 800 400
    { page_content := String.mk (List.replicate 51 'a'),
      metadata := { emptyMeta with chunk_type := some "semantic" } }
    (by decide)

/-! Association-list dictionary lemmas for the response cache. -/

theorem alGet_alSetKeepPos_self {β : Type} (l : List (String × β)) (k : String) (v : β) :
    alGet (alSetKeepPos l k v) k = some v := by
  induction l with
  | nil => simp [alSetKeepPos, alGet]
  | cons p rest ih =>
    obtain ⟨k', w⟩ := p
    by_cases h : k' = k
    · simp [alSetKeepPos, h, alGet]
    · simp [alSetKeepPos, h, alGet, ih]

theorem alGet_eq_none_of_not_mem {β : Type} (l : List (String × β)) (k : String)
    (h : k ∉ l.map Prod.fst) : alGet l k = none := by
  induction l with
  | nil => rfl
  | cons p rest ih =>
    obtain ⟨k', w⟩ := p
    simp only [List.map_cons, List.mem_cons] at h
    push_neg at h
    have hne : ¬ (k' = k) := fun hh => h.1 hh.symm
    simp [alGet, hne, ih h.2]

theorem alRemove_keys_sublist {β : Type} (l : List (String × β)) (k : String) :
    ((alRemove l k).map Prod.fst).Sublist (l.map Prod.fst) := by
  induction l with
  | nil => simp [alRemove]
  | cons p rest ih =>
    obtain ⟨k', w⟩ := p
    by_cases h : k' = k
    · simp only [alRemove, h, if_pos rfl, List.map_cons]
      exact (List.Sublist.refl _).cons _
    · simp only [alRemove, h, if_false, List.map_cons]
      exact ih.cons₂ _

theorem alKeysNodup_alRemove {β : Type} (l : List (String × β)) (k : String)
    (h : alKeysNodup l) : alKeysNodup (alRemove l k) :=
  List.Nodup.sublist (alRemove_keys_sublist l k) h

theorem alKeysNodup_foldl_alRemove {β : Type} (ks : List String) :
    ∀ l : List (String × β), alKeysNodup l →
      alKeysNodup (ks.foldl (fun l k => alRemove l k) l) := by
  induction ks with
  | nil =>
    intro l h
    simpa using h
  | cons k ks ih =>
    intro l h
    simpa [List.foldl_cons] using ih _ (alKeysNodup_alRemove l k h)

theorem alKeysNodup_evictEntries {V : Type} (rc : RCache V) (needed : Nat)
    (h : alKeysNodup rc.cache) : alKeysNodup (evictEntries rc needed).cache := by
  cases hs : rc.strategy with
  | lru => simpa [evictEntries, hs, removeKeys] using
      alKeysNodup_foldl_alRemove _ _ h
  | fifo => simpa [evictEntries, hs, removeKeys] using
      alKeysNodup_foldl_alRemove _ _ h
  | lfu => simpa [evictEntries, hs, removeKeys] using
      alKeysNodup_foldl_alRemove _ _ h
  | ttl => simpa [evictEntries, hs] using h

theorem mem_keys_alSetKeepPos {β : Type} (l : List (String × β)) (k : String) (v : β)
    (a : String) (h : a ∈ (alSetKeepPos l k v).map Prod.fst) :
    a ∈ l.map Prod.fst ∨ a = k := by
  induction l with
  | nil =>
    simp [alSetKeepPos] at h
    exact Or.inr h
  | cons p rest ih =>
    obtain ⟨k', w⟩ := p
    by_cases hk : k' = k
    · simp only [alSetKeepPos, hk, if_pos rfl, if_true, List.map_cons, List.mem_cons] at h
      rcases h with h | h
      · exact Or.inr h
      · exact Or.inl (by simp [h])
    · simp only [alSetKeepPos, hk, if_false, List.map_cons, List.mem_cons] at h
      rcases h with h | h
      · exact Or.inl (by simp [h])
      · rcases ih h with h' | h'
        · exact Or.inl (by simp [h'])
        · exact Or.inr h'

theorem alKeysNodup_alSetKeepPos {β : Type} (l : List (String × β)) (k : String) (v : β)
    (h : alKeysNodup l) : alKeysNodup (alSetKeepPos l k v) := by
  induction l with
  | nil => simp [alSetKeepPos, alKeysNodup]
  | cons p rest ih =>
    obtain ⟨k', w⟩ := p
    simp only [alKeysNodup, List.map_cons, List.nodup_cons] at h
    by_cases hk : k' = k
    · simp only [alSetKeepPos, hk, if_pos rfl]
      simpa [alKeysNodup, List.nodup_cons, hk] using h
    · have hrest := ih h.2
      simp only [alSetKeepPos, hk, if_false, alKeysNodup, List.map_cons, List.nodup_cons]
      refine ⟨?_, hrest⟩
      intro hmem
      rcases mem_keys_alSetKeepPos rest k v k' hmem with hm | hm
      · exact h.1 hm
      · exact hk hm

theorem alGet_alRemove_self {β : Type} (l : List (String × β)) (k : String)
    (h : alKeysNodup l) : alGet (alRemove l k) k = none := by
  induction l with
  | nil => rfl
  | cons p rest ih =>
    obtain ⟨k', w⟩ := p
    simp only [alKeysNodup, List.map_cons, List.nodup_cons] at h
    by_cases hk : k' = k
    · simp only [alRemove, hk, if_pos rfl]
      exact alGet_eq_none_of_not_mem rest k (hk ▸ h.1)
    · simp only [alRemove, hk, if_false]
      simp only [alGet, hk, if_false]
      exact ih h.2

theorem alGet_append_of_none {β : Type} (l₁ l₂ : List (String × β)) (k : String)
    (h : alGet l₁ k = none) : alGet (l₁ ++ l₂) k = alGet l₂ k := by
  induction l₁ with
  | nil => simp
  | cons p rest ih =>
    obtain ⟨k', w⟩ := p
    by_cases hk : k' = k
    · simp [alGet, hk] at h
    · simp only [List.cons_append]
      simp only [alGet, hk, if_false] at h ⊢
      exact ih h

theorem alKeysNodup_rcSet {V : Type} (szOf : V → Nat) (rc : RCache V) (query : String)
    (response : V) (context session_id : String) (ttl now : Nat)
    (h : alKeysNodup rc.cache) :
    alKeysNodup (rcSet szOf rc query response context session_id ttl now).cache := by
  simp only [rcSet]
  apply alKeysNodup_alSetKeepPos
  split
  · exact alKeysNodup_evictEntries _ _ h
  · exact h

/-- C8: a `ResponseCache.get` issued after a `ResponseCache.set` of the
same `(query, context, session_id)` triple returns the stored answer
while the TTL has not elapsed, and the hit bumps `access_count` to 2 and
refreshes `accessed_at` to the lookup time; once `now - created_at`
exceeds the TTL the lookup misses and the expired entry is deleted. -/
theorem response_cache_get_after_set {V : Type} (szOf : V → Nat) (rc₀ : RCache V)
    (query ans_ctx session_id : String) (ans : V) (ttl t0 t1 : Nat)
    (hnd : alKeysNodup rc₀.cache) :
    (t1 - t0 ≤ ttl →
      (rcGet (rcSet szOf rc₀ query ans ans_ctx session_id ttl t0)
          query ans_ctx session_id t1).1 = some ans ∧
      (alGet (rcGet (rcSet szOf rc₀ query ans ans_ctx session_id ttl t0)
            query ans_ctx session_id t1).2.cache
          (rc_generate_key query ans_ctx session_id)).map
          (fun e => (e.value, e.access_count, e.accessed_at)) = some (ans, 2, t1)) ∧
    (ttl < t1 - t0 →
      (rcGet (rcSet szOf rc₀ query ans ans_ctx session_id ttl t0)
          query ans_ctx session_id t1).1 = none ∧
      alGet (rcGet (rcSet szOf rc₀ query ans ans_ctx session_id ttl t0)
            query ans_ctx session_id t1).2.cache
          (rc_generate_key query ans_ctx session_id) = none) := by
  have hnd1 : alKeysNodup (rcSet szOf rc₀ query ans ans_ctx session_id ttl t0).cache :=
    alKeysNodup_rcSet szOf rc₀ query ans ans_ctx session_id ttl t0 hnd
  have hget : alGet (rcSet szOf rc₀ query ans ans_ctx session_id ttl t0).cache
      (rc_generate_key query ans_ctx session_id) = some
      { key := rc_generate_key query ans_ctx session_id, value := ans, created_at := t0,
        accessed_at := t0, access_count := 1, size_bytes := szOf ans, ttl_seconds := ttl,
        mquery := String.mk (query.data.take 100), mcontext_length := ans_ctx.length } := by
    simp only [rcSet]
    exact alGet_alSetKeepPos_self _ _ _
  constructor
  · intro hle
    have hnx : ¬ (ttl < t1 - t0) := not_lt.mpr hle
    constructor
    · simp only [rcGet, hget]
      simp [hnx]
    · simp only [rcGet, hget]
      simp only [hnx, if_false]
      rw [alGet_append_of_none _ _ _ (alGet_alRemove_self _ _ hnd1)]
      simp [alGet]
  · intro hexp
    constructor
    · simp only [rcGet, hget]
      simp [hexp]
    · simp only [rcGet, hget]
      simp only [hexp, if_true]
      exact alGet_alRemove_self _ _ hnd1

/-- Witness for C8 at a concrete empty cache: setting `"hello"` at
second 10 with TTL 100 and reading it back at second 50 hits. -/
theorem response_cache_get_after_set_witness :
    alKeysNodup (RCache.cache (V := String) ⟨1000, RStrategy.lru, [], []⟩) ∧
    (rcGet (rcSet String.length ⟨1000, RStrategy.lru, [], []⟩ "q" "hello" "c" "s" 100 10)
        "q" "c" "s" 50).1 = some "hello" :=
  ⟨by simp [alKeysNodup],
   ((response_cache_get_after_set String.length ⟨1000, RStrategy.lru, [], []⟩
      "q" "c" "s" "hello" 100 10 50 (by simp [alKeysNodup])).1 (by decide)).1⟩

end RagCore
